import Mathlib

/-!
Verification of the btmg bidirectional temporal memory graph.

This file shallowly embeds the parts of the implementation that the checked
properties are about:

* JSON-like property values (`JValue`), the structural equality used by the
  code (`fast-deep-equal`), and the canonical form underlying the
  `object-hash` sync hash (`src/docs/renderer.ts`);
* the version diff (`src/temporal/diff.ts`) and sync changeset
  (`src/sync/differ.ts`) computations;
* the Cypher query builders (`src/neo4j/cypher.ts`) together with an
  operational model of the labeled property store they mutate;
* the crud layer (`src/graph/crud.ts`), the sync orchestrator
  (`src/sync/index.ts` / `src/sync/conflict.ts`) and the scanner fingerprint
  store (`src/scanner/fingerprint.ts`).
-/

/-! ## JSON-like values

Property maps on states, frontmatter and query parameters are JavaScript
objects whose values are JSON-like.  A JS object is an insertion-ordered
key/value sequence without duplicate keys; we model it as an association
list and carry the no-duplicate-keys fact as a well-formedness predicate. -/

/-- A JSON-like JavaScript value.  Numbers are modeled as integers (the
checked claims do not depend on float behavior). -/
inductive JValue where
  | null : JValue
  | bool (b : Bool) : JValue
  | num (n : Int) : JValue
  | str (s : String) : JValue
  | arr (elems : List JValue) : JValue
  | obj (entries : List (String × JValue)) : JValue

mutual

def jvalueDecEq : (a b : JValue) → Decidable (a = b)
  | .null, .null => .isTrue rfl
  | .bool x, .bool y =>
    match decEq x y with
    | .isTrue h => .isTrue (by rw [h])
    | .isFalse h => .isFalse (fun e => h (by cases e; rfl))
  | .num x, .num y =>
    match decEq x y with
    | .isTrue h => .isTrue (by rw [h])
    | .isFalse h => .isFalse (fun e => h (by cases e; rfl))
  | .str x, .str y =>
    match decEq x y with
    | .isTrue h => .isTrue (by rw [h])
    | .isFalse h => .isFalse (fun e => h (by cases e; rfl))
  | .arr xs, .arr ys =>
    match jlistDecEq xs ys with
    | .isTrue h => .isTrue (by rw [h])
    | .isFalse h => .isFalse (fun e => h (by cases e; rfl))
  | .obj a, .obj b =>
    match jkvsDecEq a b with
    | .isTrue h => .isTrue (by rw [h])
    | .isFalse h => .isFalse (fun e => h (by cases e; rfl))
  | .null, .bool _ => .isFalse nofun
  | .null, .num _ => .isFalse nofun
  | .null, .str _ => .isFalse nofun
  | .null, .arr _ => .isFalse nofun
  | .null, .obj _ => .isFalse nofun
  | .bool _, .null => .isFalse nofun
  | .bool _, .num _ => .isFalse nofun
  | .bool _, .str _ => .isFalse nofun
  | .bool _, .arr _ => .isFalse nofun
  | .bool _, .obj _ => .isFalse nofun
  | .num _, .null => .isFalse nofun
  | .num _, .bool _ => .isFalse nofun
  | .num _, .str _ => .isFalse nofun
  | .num _, .arr _ => .isFalse nofun
  | .num _, .obj _ => .isFalse nofun
  | .str _, .null => .isFalse nofun
  | .str _, .bool _ => .isFalse nofun
  | .str _, .num _ => .isFalse nofun
  | .str _, .arr _ => .isFalse nofun
  | .str _, .obj _ => .isFalse nofun
  | .arr _, .null => .isFalse nofun
  | .arr _, .bool _ => .isFalse nofun
  | .arr _, .num _ => .isFalse nofun
  | .arr _, .str _ => .isFalse nofun
  | .arr _, .obj _ => .isFalse nofun
  | .obj _, .null => .isFalse nofun
  | .obj _, .bool _ => .isFalse nofun
  | .obj _, .num _ => .isFalse nofun
  | .obj _, .str _ => .isFalse nofun
  | .obj _, .arr _ => .isFalse nofun

def jlistDecEq : (a b : List JValue) → Decidable (a = b)
  | [], [] => .isTrue rfl
  | [], _ :: _ => .isFalse nofun
  | _ :: _, [] => .isFalse nofun
  | x :: xs, y :: ys =>
    match jvalueDecEq x y, jlistDecEq xs ys with
    | .isTrue h1, .isTrue h2 => .isTrue (by rw [h1, h2])
    | .isFalse h1, _ => .isFalse (fun e => h1 (by cases e; rfl))
    | _, .isFalse h2 => .isFalse (fun e => h2 (by cases e; rfl))

def jkvsDecEq : (a b : List (String × JValue)) → Decidable (a = b)
  | [], [] => .isTrue rfl
  | [], _ :: _ => .isFalse nofun
  | _ :: _, [] => .isFalse nofun
  | (k, v) :: xs, (k', v') :: ys =>
    match decEq k k', jvalueDecEq v v', jkvsDecEq xs ys with
    | .isTrue h0, .isTrue h1, .isTrue h2 => .isTrue (by rw [h0, h1, h2])
    | .isFalse h0, _, _ => .isFalse (fun e => h0 (by cases e; rfl))
    | _, .isFalse h1, _ => .isFalse (fun e => h1 (by cases e; rfl))
    | _, _, .isFalse h2 => .isFalse (fun e => h2 (by cases e; rfl))

end

instance : DecidableEq JValue := jvalueDecEq

/-- A JavaScript object / `Record<string, unknown>`: insertion-ordered
entries. -/
abbrev PropMap := List (String × JValue)

/-- Property access `m[key]`: the binding for `key` (JS objects hold at most
one binding per key; on well-formed maps first match is the only match). -/
def lookupKey (key : String) : PropMap → Option JValue
  | [] => none
  | kv :: rest => if kv.1 = key then some kv.2 else lookupKey key rest

mutual

/-- Structural equality of values as computed by the `fast-deep-equal`
package (used by `src/temporal/diff.ts` and `src/sync/differ.ts`):
arrays compare by length and pointwise equality, objects by key count and
per-key equality. -/
def deepEqual : JValue → JValue → Bool
  | .null, .null => true
  | .bool a, .bool b => a = b
  | .num a, .num b => a = b
  | .str a, .str b => a = b
  | .arr xs, .arr ys => xs.length = ys.length && deepEqualList xs ys
  | .obj a, .obj b => a.length = b.length && deepEqualObj a b
  | _, _ => false

/-- Pointwise comparison of two arrays of equal length. -/
def deepEqualList : List JValue → List JValue → Bool
  | [], _ => true
  | _ :: _, [] => false
  | x :: xs, y :: ys => deepEqual x y && deepEqualList xs ys

/-- Per-key comparison: every binding of the first object must be present in
the second with a deep-equal value. -/
def deepEqualObj : List (String × JValue) → List (String × JValue) → Bool
  | [], _ => true
  | kv :: rest, b =>
    (match lookupKey kv.1 b with
     | some v => deepEqual kv.2 v
     | none => false)
    && deepEqualObj rest b

end

/-- Lexicographic comparison of character sequences, the order the JS
`Array.prototype.sort` default comparator (UTF-16 code-unit order) induces on
keys. -/
def charListLE : List Char → List Char → Bool
  | [], _ => true
  | _ :: _, [] => false
  | c :: cs, d :: ds => if c < d then true else if d < c then false else charListLE cs ds

/-- Lexicographic string comparison. -/
def strLE (a b : String) : Bool := charListLE a.data b.data

/-- Ordering of object entries by key, as produced by the JS
`Array.prototype.sort` call inside `object-hash`. -/
def keyLE (a b : String × JValue) : Prop := strLE a.1 b.1 = true

/-- Strict version of `keyLE` on entries with distinct keys. -/
def keyLT (a b : String × JValue) : Prop := strLE a.1 b.1 = true ∧ a.1 ≠ b.1

instance : DecidableRel keyLE := fun a b => inferInstanceAs (Decidable (strLE a.1 b.1 = true))

mutual

/-- Canonical form of a value as serialized by the `object-hash` package with
stable key order (`src/docs/renderer.ts` hashes this canonical form with
SHA-1): object keys are sorted, arrays keep their order, scalars are kept.
The 160-bit digest itself is modeled by the canonical form (i.e. the digest
is treated as injective on canonical serializations). -/
def canonicalize : JValue → JValue
  | .null => .null
  | .bool b => .bool b
  | .num n => .num n
  | .str s => .str s
  | .arr xs => .arr (canonicalizeList xs)
  | .obj kvs => .obj (List.insertionSort keyLE (canonicalizeKVs kvs))

/-- Canonicalize every element of an array. -/
def canonicalizeList : List JValue → List JValue
  | [] => []
  | x :: xs => canonicalize x :: canonicalizeList xs

/-- Canonicalize every value of an object entry list. -/
def canonicalizeKVs : List (String × JValue) → List (String × JValue)
  | [] => []
  | kv :: rest => (kv.1, canonicalize kv.2) :: canonicalizeKVs rest

end

mutual

/-- Well-formedness of a value as a JavaScript value: every object level has
no duplicate keys (a JS object cannot hold two bindings for one key). -/
def wfValue : JValue → Prop
  | .null => True
  | .bool _ => True
  | .num _ => True
  | .str _ => True
  | .arr xs => wfList xs
  | .obj kvs => (kvs.map Prod.fst).Nodup ∧ wfKVs kvs

/-- All elements well-formed. -/
def wfList : List JValue → Prop
  | [] => True
  | x :: xs => wfValue x ∧ wfList xs

/-- All entry values well-formed. -/
def wfKVs : List (String × JValue) → Prop
  | [] => True
  | kv :: rest => wfValue kv.2 ∧ wfKVs rest

end

mutual

def decWfValue : (v : JValue) → Decidable (wfValue v)
  | .null => .isTrue trivial
  | .bool _ => .isTrue trivial
  | .num _ => .isTrue trivial
  | .str _ => .isTrue trivial
  | .arr xs => decWfList xs
  | .obj kvs =>
    match List.nodupDecidable (kvs.map Prod.fst), decWfKVs kvs with
    | .isTrue h1, .isTrue h2 => .isTrue ⟨h1, h2⟩
    | .isFalse h1, _ => .isFalse (fun h => h1 h.1)
    | _, .isFalse h2 => .isFalse (fun h => h2 h.2)

def decWfList : (l : List JValue) → Decidable (wfList l)
  | [] => .isTrue trivial
  | x :: xs =>
    match decWfValue x, decWfList xs with
    | .isTrue h1, .isTrue h2 => .isTrue ⟨h1, h2⟩
    | .isFalse h1, _ => .isFalse (fun h => h1 h.1)
    | _, .isFalse h2 => .isFalse (fun h => h2 h.2)

def decWfKVs : (l : List (String × JValue)) → Decidable (wfKVs l)
  | [] => .isTrue trivial
  | kv :: rest =>
    match decWfValue kv.2, decWfKVs rest with
    | .isTrue h1, .isTrue h2 => .isTrue ⟨h1, h2⟩
    | .isFalse h1, _ => .isFalse (fun h => h1 h.1)
    | _, .isFalse h2 => .isFalse (fun h => h2 h.2)

end

instance : DecidablePred wfValue := decWfValue

instance : DecidablePred wfList := decWfList

instance : DecidablePred wfKVs := decWfKVs

/-! ## Sync hash and user-property projection

These model `computeSyncHash` (src/docs/renderer.ts), `stripMeta`
(src/sync/differ.ts) and `extractProperties` (src/docs/parser.ts).  The JS
test `key.startsWith("_")` is equivalent to the first character being an
underscore. -/

/-- The `key.startsWith("_")` test used by all three functions. -/
def startsWithUnderscore (key : String) : Bool :=
  match key.data with
  | [] => false
  | c :: _ => c = '_'

/-- Keep only user properties: drop every key beginning with an underscore
(`stripMeta` in src/sync/differ.ts). -/
def stripMeta (state : PropMap) : PropMap :=
  state.filter (fun kv => !(startsWithUnderscore kv.1))

/-- Extract graph-compatible properties from frontmatter, dropping internal
underscore keys (`extractProperties` in src/docs/parser.ts). -/
def extractProperties (frontmatter : PropMap) : PropMap :=
  frontmatter.filter (fun kv => !(startsWithUnderscore kv.1))

/-- The deterministic sync hash of a state (`computeSyncHash` in
src/docs/renderer.ts): strip temporal meta keys beginning with an
underscore, then hash the canonical serialization.  The SHA-1 digest is
modeled by the canonical form itself (the digest is injective on canonical
serializations up to collisions, which are out of scope). -/
def computeSyncHash (state : PropMap) : JValue :=
  canonicalize (.obj (state.filter (fun kv => !(startsWithUnderscore kv.1))))

/-! ## Version diff (src/temporal/diff.ts) -/

/-- A single property change; `none` models JS `undefined` on the missing
side (an add or a remove). -/
structure PropertyChange where
  property : String
  old : Option JValue
  new : Option JValue
deriving DecidableEq

/-- The structured diff returned by `diffStates`. -/
structure VersionDiff where
  entityId : String
  fromVersion : Int
  toVersion : Int
  changes : List PropertyChange
deriving DecidableEq

/-- Internal temporal/system keys skipped when diffing (SKIP_KEYS in
src/temporal/diff.ts). -/
def SKIP_KEYS : List String :=
  ["_entity_id", "_valid_from", "_valid_to", "_recorded_at", "_version", "_actor"]

/-- Order-preserving dedup, as performed by `new Set([...])` (JS sets keep
first-occurrence insertion order). -/
def jsDedupGo (seen : List String) : List String → List String
  | [] => []
  | x :: xs => if x ∈ seen then jsDedupGo seen xs else x :: jsDedupGo (x :: seen) xs

/-- JS `new Set(keys)` iteration order. -/
def jsDedup (l : List String) : List String := jsDedupGo [] l

/-- Deep equality on possibly-absent values: JS `equal(a[key], b[key])`
where a missing key reads as `undefined`. -/
def deepEqualOpt : Option JValue → Option JValue → Bool
  | none, none => true
  | some a, some b => deepEqual a b
  | _, _ => false

/-- JS `Number(x ?? 0)` on the `_version` entries; non-numeric coercions are
out of scope for the checked claims and map to 0. -/
def jsNumberOrZero : Option JValue → Int
  | some (.num n) => n
  | _ => 0

/-- The key set iterated by `diffStates`:
`new Set([...Object.keys(oldState), ...Object.keys(newState)])`. -/
def diffAllKeys (oldState newState : PropMap) : List String :=
  jsDedup (oldState.map Prod.fst ++ newState.map Prod.fst)

/-- `diffStates` (src/temporal/diff.ts): iterate the union of key sets,
skip the fixed temporal keys, and record every key whose values are not
deep-equal. -/
def diffStates (entityId : String) (oldState newState : PropMap) : VersionDiff :=
  { entityId := entityId
    fromVersion := jsNumberOrZero (lookupKey "_version" oldState)
    toVersion := jsNumberOrZero (lookupKey "_version" newState)
    changes := (diffAllKeys oldState newState).filterMap (fun key =>
      if key ∈ SKIP_KEYS then none
      else if deepEqualOpt (lookupKey key oldState) (lookupKey key newState) then none
      else some { property := key, old := lookupKey key oldState,
                  new := lookupKey key newState }) }

/-! ## Sync changeset (src/sync/differ.ts)

`EntityWithState` mirrors src/temporal/model.ts; a parsed doc mirrors
src/docs/parser.ts.  The three required `DocFrontmatter` keys (`_id`,
`_label`, `_sync_hash`) are lifted into typed fields per their TS interface
declaration; `frontmatter` is the full frontmatter map fed to
`extractProperties` (its underscore keys, including those three, are
stripped there).  A missing `_sync_hash` is `none`, matching JS
`undefined`. -/

/-- Entity node properties (`_id`, `_label`, `_created_at`). -/
structure EntityInfo where
  id : String
  label : String
  createdAt : String
deriving DecidableEq

/-- An entity together with its current state map. -/
structure EntityWithState where
  entity : EntityInfo
  state : PropMap
deriving DecidableEq

/-- A parsed doc (src/docs/parser.ts `ParsedDoc`). -/
structure ParsedDoc where
  filePath : String
  relativePath : String
  fmId : String
  fmLabel : String
  fmSyncHash : Option JValue
  frontmatter : PropMap
  content : String
deriving DecidableEq

/-- Change kinds computed by the differ. -/
inductive ChangeType where
  | create : ChangeType
  | update : ChangeType
  | delete : ChangeType
  | conflict : ChangeType
deriving DecidableEq

/-- One changeset entry (src/sync/differ.ts `Change`). -/
structure Change where
  type : ChangeType
  entityId : String
  label : String
  graphProperties : Option PropMap
  docProperties : Option PropMap
  filePath : Option String
  hashMatch : Option Bool
  graphHash : Option JValue
  docHash : Option JValue
deriving DecidableEq

/-- JS `Map.prototype.set`: update the binding in place if the key exists,
else append. -/
def jsMapSet {α : Type} (m : List (String × α)) (k : String) (v : α) :
    List (String × α) :=
  if m.any (fun q => q.1 = k) then m.map (fun q => if q.1 = k then (k, v) else q)
  else m ++ [(k, v)]

/-- JS `new Map(pairs)`: later bindings win, insertion order kept. -/
def jsMapFromList {α : Type} (ps : List (String × α)) : List (String × α) :=
  ps.foldl (fun m p => jsMapSet m p.1 p.2) []

/-- JS `Map.prototype.get`. -/
def jsMapGet {α : Type} (m : List (String × α)) (k : String) : Option α :=
  (m.find? (fun q => q.1 = k)).map Prod.snd

/-- JS `Map.prototype.has`. -/
def jsMapHas {α : Type} (m : List (String × α)) (k : String) : Bool :=
  m.any (fun q => q.1 = k)

/-- `computeChanges` (src/sync/differ.ts): graph-only ids become doc-create
changes, doc-only ids become graph-create changes, ids on both sides are
classified by recomputed graph hash vs the stored frontmatter hash and by
deep equality of the two stripped property maps. -/
def computeChanges (graphEntities : List EntityWithState) (docs : List ParsedDoc) :
    List Change :=
  (jsMapFromList (graphEntities.map (fun e => (e.entity.id, e)))).filterMap
    (fun p =>
      if jsMapHas (jsMapFromList (docs.map (fun d => (d.fmId, d)))) p.1 then none
      else some { type := .create, entityId := p.1, label := p.2.entity.label,
                  graphProperties := some (stripMeta p.2.state),
                  docProperties := none, filePath := none, hashMatch := none,
                  graphHash := none, docHash := none })
  ++ (jsMapFromList (docs.map (fun d => (d.fmId, d)))).filterMap
    (fun p =>
      if jsMapHas (jsMapFromList (graphEntities.map (fun e => (e.entity.id, e)))) p.1
      then none
      else some { type := .create, entityId := p.1, label := p.2.fmLabel,
                  graphProperties := none,
                  docProperties := some (extractProperties p.2.frontmatter),
                  filePath := some p.2.filePath, hashMatch := none,
                  graphHash := none, docHash := none })
  ++ (jsMapFromList (graphEntities.map (fun e => (e.entity.id, e)))).filterMap
    (fun p =>
      match jsMapGet (jsMapFromList (docs.map (fun d => (d.fmId, d)))) p.1 with
      | none => none
      | some doc =>
        if some (computeSyncHash p.2.state) = doc.fmSyncHash then
          if deepEqual (.obj (stripMeta p.2.state))
              (.obj (extractProperties doc.frontmatter)) then none
          else some { type := .update, entityId := p.1, label := p.2.entity.label,
                      graphProperties := some (stripMeta p.2.state),
                      docProperties := some (extractProperties doc.frontmatter),
                      filePath := some doc.filePath, hashMatch := some false,
                      graphHash := none, docHash := none }
        else some { type := .conflict, entityId := p.1, label := p.2.entity.label,
                    graphProperties := some (stripMeta p.2.state),
                    docProperties := some (extractProperties doc.frontmatter),
                    filePath := some doc.filePath, hashMatch := some false,
                    graphHash := some (computeSyncHash p.2.state),
                    docHash := doc.fmSyncHash })

/-! ## Identifier discipline (src/neo4j/cypher.ts) -/

/-- The SAFE_IDENTIFIER regex test: the value matches
/^[A-Za-z_][A-Za-z0-9_]*$/ iff it is nonempty, begins with an ASCII letter
or underscore, and continues with ASCII alphanumerics or underscores
(`Char.isAlpha`/`Char.isAlphanum` are exactly the ASCII ranges). -/
def isSafeIdentifier (value : String) : Bool :=
  match value.data with
  | [] => false
  | c :: rest => (c.isAlpha || c = '_') && rest.all (fun d => d.isAlphanum || d = '_')

/-- `sanitizeIdentifier`: return the value unchanged when it matches the
SAFE_IDENTIFIER pattern, otherwise throw before any query text is built. -/
def sanitizeIdentifier (value : String) : Except String String :=
  if isSafeIdentifier value then .ok value
  else .error ("Invalid Cypher identifier \x22" ++ value ++
    "\x22. Must match /^[A-Za-z_][A-Za-z0-9_]*$/.")

/-! ## Operational model of the temporal store

The Cypher write queries built in src/neo4j/cypher.ts execute against a
labeled property graph.  The model keeps the three node collections
(Entity, State, AuditEntry nodes, each with a graph-level node identity
`nid`) and the CURRENT / PREVIOUS / AUDITED relationship sets as lists of
`nid` pairs.  Each `cypher…` builder's semantics is the corresponding
state transition of this graph, matching the query text row by row. -/

/-- An Entity node (`_id`, `_label`, `_created_at`, `_deleted_at`,
`_deleted_by`). -/
structure EntityNode where
  nid : Nat
  id : String
  label : String
  createdAt : String
  deletedAt : Option String
  deletedBy : Option String
deriving DecidableEq

/-- A State node (`_entity_id`, `_valid_from`, `_valid_to`, `_recorded_at`,
`_version`, `_actor` plus the user property set from `SET s += $properties`). -/
structure StateNode where
  nid : Nat
  entityId : String
  validFrom : String
  validTo : Option String
  recordedAt : String
  version : Nat
  actor : String
  props : PropMap
deriving DecidableEq

/-- An AuditEntry node. -/
structure AuditNode where
  nid : Nat
  auditId : String
  entityId : String
  entityLabel : String
  action : String
  actor : String
  timestamp : String
  changes : Option String
deriving DecidableEq

/-- The graph store. -/
structure Store where
  nextNid : Nat
  entities : List EntityNode
  states : List StateNode
  currentRel : List (Nat × Nat)
  previousRel : List (Nat × Nat)
  auditedRel : List (Nat × Nat)
  audits : List AuditNode
deriving DecidableEq

/-- The empty graph. -/
def Store.empty : Store := ⟨0, [], [], [], [], [], []⟩

/-- Node lookup by graph identity among Entity nodes. -/
def entityByNid (st : Store) (n : Nat) : Option EntityNode :=
  st.entities.find? (fun e => e.nid = n)

/-- Node lookup by graph identity among State nodes. -/
def stateByNid (st : Store) (n : Nat) : Option StateNode :=
  st.states.find? (fun s => s.nid = n)

/-- Arguments of `cypherCreateEntity`. -/
structure CreateEntityArgs where
  id : String
  label : String
  properties : PropMap
  actor : String
  now : String
  auditId : String

/-- Semantics of `cypherCreateEntity`: an unconditional CREATE of an Entity
node, its version-1 State (`_valid_from = now`, `_valid_to = null`), the
CURRENT link, and the create AuditEntry with its AUDITED link. -/
def createEntity (st : Store) (a : CreateEntityArgs) : Store :=
  { nextNid := st.nextNid + 3
    entities := st.entities ++
      [⟨st.nextNid, a.id, a.label, a.now, none, none⟩]
    states := st.states ++
      [⟨st.nextNid + 1, a.id, a.now, none, a.now, 1, a.actor, a.properties⟩]
    currentRel := st.currentRel ++ [(st.nextNid, st.nextNid + 1)]
    previousRel := st.previousRel
    auditedRel := st.auditedRel ++ [(st.nextNid, st.nextNid + 2)]
    audits := st.audits ++
      [⟨st.nextNid + 2, a.auditId, a.id, a.label, "create", a.actor, a.now, none⟩] }

/-- Rows of `MATCH (e:Entity \x7b_id: $id\x7d)-[cur:CURRENT]->(old:State)`:
no filter on `_deleted_at`. -/
def currentMatches (st : Store) (id : String) : List (Nat × Nat) :=
  st.currentRel.filter (fun p =>
    (match entityByNid st p.1 with
     | some e => e.id = id
     | none => false) && (stateByNid st p.2).isSome)

/-- Arguments of `cypherUpdateEntity`. -/
structure UpdateEntityArgs where
  id : String
  properties : PropMap
  actor : String
  now : String
  auditId : String
  changes : Option String

/-- One row of `cypherUpdateEntity`: close the old head (`_valid_to = now`),
delete the CURRENT link, create the successor State with
`_version = old._version + 1`, re-link CURRENT, link the new state
-PREVIOUS-> old, and append the update AuditEntry. -/
def updateEntityRow (st : Store) (a : UpdateEntityArgs) (row : Nat × Nat) :
    Store × Option StateNode :=
  match entityByNid st row.1, stateByNid st row.2 with
  | some e, some old =>
    ({ nextNid := st.nextNid + 2
       entities := st.entities
       states := (st.states.map (fun t =>
           if t.nid = old.nid then { t with validTo := some a.now } else t)) ++
         [⟨st.nextNid, a.id, a.now, none, a.now, old.version + 1, a.actor, a.properties⟩]
       currentRel := st.currentRel.erase row ++ [(e.nid, st.nextNid)]
       previousRel := st.previousRel ++ [(st.nextNid, old.nid)]
       auditedRel := st.auditedRel ++ [(e.nid, st.nextNid + 1)]
       audits := st.audits ++
         [⟨st.nextNid + 1, a.auditId, a.id, e.label, "update", a.actor, a.now, a.changes⟩] },
     some ⟨st.nextNid, a.id, a.now, none, a.now, old.version + 1, a.actor, a.properties⟩)
  | _, _ => (st, none)

/-- Semantics of `cypherUpdateEntity`: apply every matched row; the second
component collects the `RETURN s` rows. -/
def updateEntity (st : Store) (a : UpdateEntityArgs) : Store × List StateNode :=
  (currentMatches st a.id).foldl
    (fun acc row =>
      match updateEntityRow acc.1 a row with
      | (st', some s) => (st', acc.2 ++ [s])
      | (st', none) => (st', acc.2))
    (st, [])

/-- Arguments of `cypherDeleteEntity`. -/
structure DeleteEntityArgs where
  id : String
  actor : String
  now : String
  auditId : String

/-- One row of `cypherDeleteEntity`: set the head state's `_valid_to` and
the entity's `_deleted_at`/`_deleted_by` to the delete time, and append the
delete AuditEntry.  The CURRENT link is kept. -/
def deleteEntityRow (st : Store) (a : DeleteEntityArgs) (row : Nat × Nat) : Store :=
  match entityByNid st row.1, stateByNid st row.2 with
  | some e, some s =>
    { nextNid := st.nextNid + 1
      entities := st.entities.map (fun t =>
        if t.nid = e.nid then
          { t with deletedAt := some a.now, deletedBy := some a.actor } else t)
      states := st.states.map (fun t =>
        if t.nid = s.nid then { t with validTo := some a.now } else t)
      currentRel := st.currentRel
      previousRel := st.previousRel
      auditedRel := st.auditedRel ++ [(e.nid, st.nextNid)]
      audits := st.audits ++
        [⟨st.nextNid, a.auditId, a.id, e.label, "delete", a.actor, a.now, none⟩] }
  | _, _ => st

/-- Semantics of `cypherDeleteEntity`: its MATCH does not filter on
`_deleted_at`, so it re-fires on an already soft-deleted entity. -/
def deleteEntity (st : Store) (a : DeleteEntityArgs) : Store :=
  (currentMatches st a.id).foldl (fun acc row => deleteEntityRow acc a row) st

/-- Rows of `cypherGetCurrent`: same match as `currentMatches` plus
`WHERE e._deleted_at IS NULL`. -/
def getCurrentMatches (st : Store) (id : String) : List (Nat × Nat) :=
  st.currentRel.filter (fun p =>
    (match entityByNid st p.1 with
     | some e => e.id = id && e.deletedAt = none
     | none => false) && (stateByNid st p.2).isSome)

/-- `getCurrent` (src/temporal/model.ts): null when no record, else the
first row's entity and state. -/
def getCurrent (st : Store) (id : String) : Option (EntityNode × StateNode) :=
  match (getCurrentMatches st id).head? with
  | none => none
  | some row =>
    match entityByNid st row.1, stateByNid st row.2 with
    | some e, some s => some (e, s)
    | _, _ => none

/-! ## Crud layer (src/graph/crud.ts) -/

/-- The compiled schema registry, abstracted to what `upsert` consumes: the
node labels and the per-label validator (`getNodeValidator(label).validate`;
an unknown label is collapsed into a validation error, both throw). -/
structure SchemaRegistry where
  nodeLabels : List String
  validate : String → PropMap → Except String PropMap

/-- Result of `upsert`. -/
structure UpsertResult where
  id : String
  version : Nat
  created : Bool
deriving DecidableEq

/-- `upsert` (src/graph/crud.ts): validate, read the current head via
`getCurrent`, then create (version 1) or update (version old+1, read back
from the query's first returned state).  The generated timestamp and audit
id (`new Date().toISOString()` / `randomUUID`) are explicit arguments; the
id is the caller-supplied one (the fresh-UUID branch for an omitted id only
changes which id is used). -/
def upsert (st : Store) (registry : SchemaRegistry) (label : String)
    (id : String) (properties : PropMap) (actor now auditId : String) :
    Except String (Store × UpsertResult) :=
  match registry.validate label properties with
  | .error e => .error ("Validation failed for " ++ label ++ ": " ++ e)
  | .ok data =>
    match getCurrent st id with
    | none =>
      .ok (createEntity st ⟨id, label, data, actor, now, auditId⟩, ⟨id, 1, true⟩)
    | some _ =>
      match updateEntity st ⟨id, data, actor, now, auditId, none⟩ with
      | (st', s :: _) => .ok (st', ⟨id, s.version, false⟩)
      | (_, []) => .error "records[0] is undefined"

/-- `remove` (src/graph/crud.ts): run `cypherDeleteEntity` with a fresh
timestamp and audit id. -/
def remove (st : Store) (id : String) (actor now auditId : String) : Store :=
  deleteEntity st ⟨id, actor, now, auditId⟩

/-! ## C1: the version chain invariant -/

/-- One `updateEntity` call's inputs for a fixed entity id. -/
structure UpdateSpec where
  properties : PropMap
  actor : String
  now : String
  auditId : String
  changes : Option String

/-- Apply a sequence of `cypherUpdateEntity` mutations to one entity. -/
def applyUpdates (st : Store) (id : String) (ups : List UpdateSpec) : Store :=
  ups.foldl
    (fun acc u =>
      (updateEntity acc ⟨id, u.properties, u.actor, u.now, u.auditId, u.changes⟩).1)
    st

/-- The chain shape maintained by createEntity/updateEntity for one entity:
one Entity node, states in creation order with versions `1..n`, strictly
increasing node ids, CURRENT pointing at the last state (the only one with
`validTo = null`), and PREVIOUS linking each state to its predecessor. -/
def ChainInv (st : Store) (id : String) : Prop :=
  ∃ e : EntityNode, ∃ sl : StateNode,
    st.entities = [e] ∧
    e.id = id ∧
    e.nid < st.nextNid ∧
    (∀ s ∈ st.states, s.entityId = id) ∧
    st.states.map (fun s => s.version) = List.range' 1 st.states.length ∧
    List.Pairwise (fun s t : StateNode => s.nid < t.nid) st.states ∧
    (∀ s ∈ st.states, s.nid < st.nextNid) ∧
    st.states.getLast? = some sl ∧
    sl.validTo = none ∧
    (∀ s ∈ st.states, s.validTo = none → s.nid = sl.nid) ∧
    st.currentRel = [(e.nid, sl.nid)] ∧
    st.previousRel =
      ((st.states.map (fun s => s.nid)).tail).zip (st.states.map (fun s => s.nid))

/-! ## Query builders (src/neo4j/cypher.ts)

Each builder returns the query text and the bound parameter map, or throws
from `sanitizeIdentifier` before any query text is built.  Property values
enter only the parameter map, never the text. -/

/-- A compiled query: text plus bound parameters. -/
structure CompiledQuery where
  query : String
  params : List (String × JValue)
deriving DecidableEq

/-- `cypherCreateEntity`: the label is sanitized and interpolated; all
values are bound parameters. -/
def cypherCreateEntityQ (id label : String) (properties : PropMap)
    (actor now auditId : String) : Except String CompiledQuery :=
  match sanitizeIdentifier label with
  | .error e => .error e
  | .ok l => .ok {
      query :=
        "\n      CREATE (e:Entity:" ++ l ++ " \x7b\n        _id: $id,\n        _label: $label,\n        _created_at: $now\n      \x7d)\n      CREATE (s:State \x7b\n        _entity_id: $id,\n        _valid_from: $now,\n        _valid_to: null,\n        _recorded_at: $now,\n        _version: 1,\n        _actor: $actor\n      \x7d)\n      SET s += $properties\n      CREATE (e)-[:CURRENT]->(s)\n      CREATE (a:AuditEntry \x7b\n        _id: $auditId,\n        _entity_id: $id,\n        _entity_label: $label,\n        _action: \x27create\x27,\n        _actor: $actor,\n        _timestamp: $now,\n        _changes: null\n      \x7d)\n      CREATE (e)-[:AUDITED]->(a)\n      RETURN e, s\n    ",
      params := [("id", .str id), ("label", .str label), ("now", .str now),
        ("actor", .str actor), ("properties", .obj properties),
        ("auditId", .str auditId)] }

/-- `cypherRelate`: the relationship type is sanitized and interpolated. -/
def cypherRelateQ (fromId toId type : String) (properties : PropMap)
    (now actor auditId : String) : Except String CompiledQuery :=
  match sanitizeIdentifier type with
  | .error e => .error e
  | .ok t => .ok {
      query :=
        "\n      MATCH (from:Entity \x7b_id: $fromId\x7d)\n      MATCH (to:Entity \x7b_id: $toId\x7d)\n      CREATE (from)-[r:" ++ t ++ " \x7b\n        _created_at: $now,\n        _valid_from: $now,\n        _valid_to: null,\n        _actor: $actor\n      \x7d]->(to)\n      SET r += $properties\n      CREATE (a:AuditEntry \x7b\n        _id: $auditId,\n        _entity_id: $fromId,\n        _entity_label: from._label,\n        _action: \x27relate\x27,\n        _actor: $actor,\n        _timestamp: $now,\n        _changes: null\n      \x7d)\n      CREATE (from)-[:AUDITED]->(a)\n      RETURN from, r, to\n    ",
      params := [("fromId", .str fromId), ("toId", .str toId), ("now", .str now),
        ("actor", .str actor), ("properties", .obj properties),
        ("auditId", .str auditId)] }

/-- `cypherUnrelate`: the relationship type is sanitized and interpolated. -/
def cypherUnrelateQ (fromId toId type : String) (now actor auditId : String) :
    Except String CompiledQuery :=
  match sanitizeIdentifier type with
  | .error e => .error e
  | .ok t => .ok {
      query :=
        "\n      MATCH (from:Entity \x7b_id: $fromId\x7d)-[r:" ++ t ++ "]->(to:Entity \x7b_id: $toId\x7d)\n      WHERE r._valid_to IS NULL\n      SET r._valid_to = $now\n      WITH from, r, to\n      CREATE (a:AuditEntry \x7b\n        _id: $auditId,\n        _entity_id: $fromId,\n        _entity_label: from._label,\n        _action: \x27unrelate\x27,\n        _actor: $actor,\n        _timestamp: $now,\n        _changes: null\n      \x7d)\n      CREATE (from)-[:AUDITED]->(a)\n      RETURN from, r, to\n    ",
      params := [("fromId", .str fromId), ("toId", .str toId), ("now", .str now),
        ("actor", .str actor), ("auditId", .str auditId)] }

/-- `cypherQueryByLabel`: the label is sanitized and interpolated. -/
def cypherQueryByLabelQ (label : String) : Except String CompiledQuery :=
  match sanitizeIdentifier label with
  | .error e => .error e
  | .ok l => .ok {
      query :=
        "\n      MATCH (e:Entity:" ++ l ++ ")-[:CURRENT]->(s:State)\n      WHERE e._deleted_at IS NULL AND s._valid_to IS NULL\n      RETURN e, s\n    ",
      params := [] }

/-- One search predicate. -/
structure SearchFilter where
  property : String
  operator : String
  value : JValue
deriving DecidableEq

/-- The WHERE clause text for one filter; operators outside the switch
produce no clause. -/
def clauseFor (i : Nat) (prop op : String) : Option String :=
  match op with
  | "eq" => some ("s." ++ prop ++ " = $filter_" ++ toString i)
  | "contains" => some ("s." ++ prop ++ " CONTAINS $filter_" ++ toString i)
  | "gt" => some ("s." ++ prop ++ " > $filter_" ++ toString i)
  | "lt" => some ("s." ++ prop ++ " < $filter_" ++ toString i)
  | "gte" => some ("s." ++ prop ++ " >= $filter_" ++ toString i)
  | "lte" => some ("s." ++ prop ++ " <= $filter_" ++ toString i)
  | "in" => some ("s." ++ prop ++ " IN $filter_" ++ toString i)
  | _ => none

/-- The filter loop of `cypherSearch`: sanitize each property (throwing on
the first invalid one), bind each value as `$filter_i`, and collect the
recognized clauses. -/
def searchClauses : Nat → List SearchFilter →
    Except String (List String × List (String × JValue))
  | _, [] => .ok ([], [])
  | i, f :: rest =>
    match sanitizeIdentifier f.property with
    | .error e => .error e
    | .ok prop =>
      match searchClauses (i + 1) rest with
      | .error e => .error e
      | .ok (cs, ps) =>
        .ok ((match clauseFor i prop f.operator with
              | some c => c :: cs
              | none => cs),
          ("filter_" ++ toString i, f.value) :: ps)

/-- `cypherSearch`: sanitized label, property names and orderBy are
interpolated; the limit and every filter value are bound parameters. -/
def whereStrOf (whereClauses : List String) : String :=
  if whereClauses.length > 0 then
    "AND " ++ String.intercalate " AND " whereClauses else ""

def orderStrOf (orderProp : Option String) (orderDir : Option String) : String :=
  match orderProp with
  | some p => "ORDER BY s." ++ p ++ " " ++
      (if orderDir = some "asc" then "ASC" else "DESC")
  | none => ""

/-- The final query assembly of `cypherSearch` once every identifier has
been sanitized. -/
def cypherSearchAssemble (safeLabel : String) (whereClauses : List String)
    (filterParams : List (String × JValue)) (orderProp : Option String)
    (orderDir : Option String) (limit : Int) : Except String CompiledQuery :=
  .ok { query :=
    "\n      MATCH (e:Entity:" ++ safeLabel ++ ")-[:CURRENT]->(s:State)\n      WHERE e._deleted_at IS NULL AND s._valid_to IS NULL " ++ whereStrOf whereClauses ++ "\n      RETURN e, s\n      " ++ orderStrOf orderProp orderDir ++ "\n      LIMIT $limit\n    ",
        params := ("limit", JValue.num limit) :: filterParams }

/-- `cypherSearch`: sanitize the label, every filter property and the
orderBy property (throwing on the first invalid one); the limit and every
filter value are bound parameters, never query text. -/
def cypherSearchQ (label : String) (filters : List SearchFilter) (limit : Int)
    (orderBy : Option String) (orderDir : Option String) :
    Except String CompiledQuery :=
  match sanitizeIdentifier label with
  | .error e => .error e
  | .ok safeLabel =>
    match searchClauses 0 filters with
    | .error e => .error e
    | .ok (whereClauses, filterParams) =>
      match (match orderBy with
             | some ob => Except.map some (sanitizeIdentifier ob)
             | none => .ok none) with
      | .error e => .error e
      | .ok orderProp =>
        cypherSearchAssemble safeLabel whereClauses filterParams orderProp orderDir limit

/-! ## Scanner fingerprint store (src/scanner/fingerprint.ts) -/

/-- A file fingerprint record. -/
structure FileFingerprint where
  relativePath : String
  hash : String
  size : Nat
  recordedAt : Nat
deriving DecidableEq

/-- `FingerprintStore`: a JSON map keyed by relative path. -/
abbrev FingerprintStore := List (String × FileFingerprint)

/-- STORE_FILENAME constant. -/
def STORE_FILENAME : String := "fingerprints.json"

/-- BTMG_DIR constant. -/
def BTMG_DIR : String := ".btmg"

/-- `path.join` for two segments. -/
def joinPath (a b : String) : String := a ++ "/" ++ b

/-- The store path used by both load and save:
`join(projectRoot, BTMG_DIR, STORE_FILENAME)`. -/
def fingerprintStorePath (projectRoot : String) : String :=
  joinPath (joinPath projectRoot BTMG_DIR) STORE_FILENAME

/-- JSON rendering of one fingerprint record. -/
def renderFingerprint (f : FileFingerprint) : String :=
  "\x7b \x22relativePath\x22: \x22" ++ f.relativePath ++ "\x22, \x22hash\x22: \x22" ++
    f.hash ++ "\x22, \x22size\x22: " ++ toString f.size ++ ", \x22recordedAt\x22: " ++
    toString f.recordedAt ++ " \x7d"

/-- `JSON.stringify(store, null, 2)` up to whitespace: the whole map keyed
by relative path. -/
def serializeStore (store : FingerprintStore) : String :=
  "\x7b" ++ String.intercalate ", "
    (store.map (fun kv => "\x22" ++ kv.1 ++ "\x22: " ++ renderFingerprint kv.2)) ++ "\x7d"

/-- A file system as a path → content map; `writeFileSync` overwrites. -/
abbrev FileSystem := List (String × String)

/-- `writeFileSync`. -/
def fsWrite (fs : FileSystem) (path content : String) : FileSystem :=
  jsMapSet fs path content

/-- Read a file's content. -/
def fsRead (fs : FileSystem) (path : String) : Option String :=
  jsMapGet fs path

/-- `saveFingerprints`: serialize the whole store and overwrite the file at
`<projectRoot>/.btmg/fingerprints.json` (the mkdir of the `.btmg` directory
is a no-op in this model). -/
def saveFingerprints (fs : FileSystem) (projectRoot : String)
    (store : FingerprintStore) : FileSystem :=
  fsWrite fs (fingerprintStorePath projectRoot) (serializeStore store)

/-! ## Conflict resolution (src/sync/conflict.ts) and sync orchestration
(src/sync/index.ts)

The sync pipeline's I/O boundaries are modeled as data: the parsed doc tree
is an input list (`parseDocs`), the generated timestamps and audit ids are
supplied by an indexed generator (`Date` / `randomUUID`), and the final
re-render step is modeled by the list of entities handed to `writeDocs`. -/

/-- Conflict strategies. -/
inductive ConflictStrategy where
  | graphWins : ConflictStrategy
  | docsWins : ConflictStrategy
  | fail : ConflictStrategy
  | merge : ConflictStrategy
deriving DecidableEq

/-- A conflict record (schema/types.ts); the `?? ""` defaults of
conflict.ts are applied to the hashes. -/
structure ConflictRecord where
  entityId : String
  label : String
  graphHash : JValue
  docHash : JValue
  resolution : ConflictStrategy
deriving DecidableEq

/-- Where a resolved conflict is applied. -/
inductive ResolveTarget where
  | graph : ResolveTarget
  | docs : ResolveTarget
deriving DecidableEq

/-- A resolved conflict change. -/
structure ResolvedChange where
  entityId : String
  label : String
  properties : PropMap
  target : ResolveTarget
  conflict : Option ConflictRecord
deriving DecidableEq

/-- Printed change type for the non-conflict error message. -/
def changeTypeStr : ChangeType → String
  | .create => "create"
  | .update => "update"
  | .delete => "delete"
  | .conflict => "conflict"

/-- The ConflictError message raised under strategy `fail`. -/
def conflictFailMessage (entityId label : String) : String :=
  "Sync conflict for entity " ++ entityId ++ " (" ++ label ++
    "). Strategy is \x22fail\x22. Manual resolution required."

/-- JS object spread `\x7b...graph, ...doc\x7d`: doc values override graph
values on overlapping keys; doc-only keys follow. -/
def jsSpreadMerge (a b : PropMap) : PropMap :=
  (a.map (fun kv =>
    match lookupKey kv.1 b with
    | some v => (kv.1, v)
    | none => kv)) ++ b.filter (fun kv => (lookupKey kv.1 a).isNone)

/-- `resolveConflict` (src/sync/conflict.ts): throws on a non-conflict
change and under strategy `fail`; otherwise picks the winning properties
and target and carries one ConflictRecord. -/
def resolveConflict (change : Change) (strategy : ConflictStrategy) :
    Except String ResolvedChange :=
  if change.type ≠ ChangeType.conflict then
    .error ("resolveConflict called on non-conflict change: " ++
      changeTypeStr change.type)
  else
    match strategy with
    | .graphWins =>
      .ok { entityId := change.entityId, label := change.label,
            properties := change.graphProperties.getD [],
            target := .docs,
            conflict := some {
              entityId := change.entityId, label := change.label,
              graphHash := change.graphHash.getD (.str ""),
              docHash := change.docHash.getD (.str ""),
              resolution := strategy } }
    | .docsWins =>
      .ok { entityId := change.entityId, label := change.label,
            properties := change.docProperties.getD [],
            target := .graph,
            conflict := some {
              entityId := change.entityId, label := change.label,
              graphHash := change.graphHash.getD (.str ""),
              docHash := change.docHash.getD (.str ""),
              resolution := strategy } }
    | .merge =>
      .ok { entityId := change.entityId, label := change.label,
            properties := jsSpreadMerge (change.graphProperties.getD [])
              (change.docProperties.getD []),
            target := .graph,
            conflict := some {
              entityId := change.entityId, label := change.label,
              graphHash := change.graphHash.getD (.str ""),
              docHash := change.docHash.getD (.str ""),
              resolution := strategy } }
    | .fail => .error (conflictFailMessage change.entityId change.label)

/-- `resolveConflicts`: split the changeset, resolving each conflict in
order; a throw from `resolveConflict` (strategy `fail`) propagates at the
first conflict. -/
def resolveConflicts : List Change → ConflictStrategy →
    Except String (List ResolvedChange × List Change)
  | [], _ => .ok ([], [])
  | c :: rest, strategy =>
    if c.type = ChangeType.conflict then
      match resolveConflict c strategy with
      | .error e => .error e
      | .ok r =>
        match resolveConflicts rest strategy with
        | .error e => .error e
        | .ok (rs, ns) => .ok (r :: rs, ns)
    else
      match resolveConflicts rest strategy with
      | .error e => .error e
      | .ok (rs, ns) => .ok (rs, c :: ns)

/-- A per-change sync error. -/
structure SyncError where
  entityId : String
  file : Option String
  message : String
deriving DecidableEq

/-- The sync result (schema/types.ts). -/
structure SyncResult where
  created : Nat
  updated : Nat
  deleted : Nat
  conflicts : List ConflictRecord
  errors : List SyncError
deriving DecidableEq

/-- Flattening of a State node's Neo4j properties into the flat record
consumed by the differ and renderer. -/
def stateToMap (s : StateNode) : PropMap :=
  [("_entity_id", .str s.entityId), ("_valid_from", .str s.validFrom),
   ("_valid_to", match s.validTo with | some t => .str t | none => .null),
   ("_recorded_at", .str s.recordedAt), ("_version", .num s.version),
   ("_actor", .str s.actor)] ++ s.props

/-- `queryByLabel` semantics (`cypherQueryByLabel` + the row mapping of
src/temporal/model.ts): current, non-deleted entities of the label with an
open head state. -/
def queryByLabel (st : Store) (label : String) : List EntityWithState :=
  st.currentRel.filterMap (fun p =>
    match entityByNid st p.1, stateByNid st p.2 with
    | some e, some s =>
      if e.label = label && e.deletedAt = none && s.validTo = none then
        some { entity := { id := e.id, label := e.label, createdAt := e.createdAt },
               state := stateToMap s }
      else none
    | _, _ => none)

/-- Step 1 of sync: `queryByLabel` over each target label, flattened. -/
def loadGraph (st : Store) (labels : List String) : List EntityWithState :=
  (labels.map (fun l => queryByLabel st l)).flatten

/-- Generator for the per-mutation timestamps and audit ids. -/
structure SyncGen where
  nowAt : Nat → String
  auditIdAt : Nat → String

/-- Sync options (strategy, audit actor, optional label restriction). -/
structure SyncOptions where
  conflictStrategy : ConflictStrategy
  actor : String
  labels : Option (List String)

/-- Accumulator of the apply loops: store, mutation counter, result. -/
structure SyncState where
  store : Store
  k : Nat
  result : SyncResult

/-- Outcome of `sync`: the thrown-or-returned result, the store as left by
the mutations performed before returning or throwing, and the entity set
handed to the re-render step (`writeDocs`). -/
structure SyncOutcome where
  outcome : Except String SyncResult
  store : Store
  rendered : List EntityWithState

/-- Step 5 of sync: apply one resolved conflict.  Graph targets are
upserted (counting `updated`); the conflict record is pushed after a
successful apply (or immediately for docs targets); an upsert error is
recorded per change. -/
def syncStep5 (registry : SchemaRegistry) (actor : String) (gen : SyncGen)
    (ss : SyncState) (res : ResolvedChange) : SyncState :=
  if res.target = ResolveTarget.graph then
    match upsert ss.store registry res.label res.entityId res.properties actor
        (gen.nowAt ss.k) (gen.auditIdAt ss.k) with
    | .ok (st', _) =>
      { store := st', k := ss.k + 1,
        result := { ss.result with
          updated := ss.result.updated + 1,
          conflicts := ss.result.conflicts ++
            (match res.conflict with | some c => [c] | none => []) } }
    | .error e =>
      { store := ss.store, k := ss.k + 1,
        result := { ss.result with
          errors := ss.result.errors ++ [⟨res.entityId, none, e⟩] } }
  else
    { store := ss.store, k := ss.k,
      result := { ss.result with
        conflicts := ss.result.conflicts ++
          (match res.conflict with | some c => [c] | none => []) } }

/-- Step 6 of sync: apply one non-conflict change (doc-side creates and
updates upsert into the graph; deletes soft-delete; graph-only creates are
left to the re-render step). -/
def syncStep6 (registry : SchemaRegistry) (actor : String) (gen : SyncGen)
    (ss : SyncState) (change : Change) : SyncState :=
  if change.type = ChangeType.create ∧ change.docProperties.isSome then
    match upsert ss.store registry change.label change.entityId
        (change.docProperties.getD []) actor (gen.nowAt ss.k) (gen.auditIdAt ss.k) with
    | .ok (st', _) =>
      { store := st', k := ss.k + 1,
        result := { ss.result with created := ss.result.created + 1 } }
    | .error e =>
      { store := ss.store, k := ss.k + 1,
        result := { ss.result with
          errors := ss.result.errors ++ [⟨change.entityId, change.filePath, e⟩] } }
  else if change.type = ChangeType.update ∧ change.docProperties.isSome then
    match upsert ss.store registry change.label change.entityId
        (change.docProperties.getD []) actor (gen.nowAt ss.k) (gen.auditIdAt ss.k) with
    | .ok (st', _) =>
      { store := st', k := ss.k + 1,
        result := { ss.result with updated := ss.result.updated + 1 } }
    | .error e =>
      { store := ss.store, k := ss.k + 1,
        result := { ss.result with
          errors := ss.result.errors ++ [⟨change.entityId, change.filePath, e⟩] } }
  else if change.type = ChangeType.delete then
    { store := remove ss.store change.entityId actor (gen.nowAt ss.k) (gen.auditIdAt ss.k),
      k := ss.k + 1,
      result := { ss.result with deleted := ss.result.deleted + 1 } }
  else ss

/-- `sync` (src/sync/index.ts): load graph and docs, compute the changeset,
resolve conflicts (a `fail` throw aborts before anything is applied), apply
resolved conflicts then non-conflict changes, and re-render the whole
current graph state. -/
def sync (st : Store) (registry : SchemaRegistry) (gen : SyncGen)
    (docs : List ParsedDoc) (opts : SyncOptions) : SyncOutcome :=
  match resolveConflicts
      (computeChanges (loadGraph st (opts.labels.getD registry.nodeLabels)) docs)
      opts.conflictStrategy with
  | .error msg => { outcome := .error msg, store := st, rendered := [] }
  | .ok (resolved, nonConflicts) =>
    let s5 := resolved.foldl (syncStep5 registry opts.actor gen)
      ⟨st, 0, ⟨0, 0, 0, [], []⟩⟩
    let s6 := nonConflicts.foldl (syncStep6 registry opts.actor gen) s5
    { outcome := .ok s6.result, store := s6.store,
      rendered := loadGraph s6.store (opts.labels.getD registry.nodeLabels) }

theorem charListLE_total : ∀ (l₁ l₂ : List Char),
    charListLE l₁ l₂ = true ∨ charListLE l₂ l₁ = true := by
  intro l₁
  induction l₁ with
  | nil => intro l₂; left; rfl
  | cons c cs ih =>
    intro l₂
    cases l₂ with
    | nil => right; rfl
    | cons d ds =>
      by_cases h1 : c < d
      · left
        simp [charListLE, h1]
      · by_cases h2 : d < c
        · right
          simp [charListLE, h2]
        · rcases ih ds with h | h
          · left
            simp [charListLE, h1, h2, h]
          · right
            simp [charListLE, h1, h2, h]

theorem charListLE_antisymm : ∀ {l₁ l₂ : List Char},
    charListLE l₁ l₂ = true → charListLE l₂ l₁ = true → l₁ = l₂ := by
  intro l₁
  induction l₁ with
  | nil =>
    intro l₂ _ h2
    cases l₂ with
    | nil => rfl
    | cons d ds => simp [charListLE] at h2
  | cons c cs ih =>
    intro l₂ h1 h2
    cases l₂ with
    | nil => simp [charListLE] at h1
    | cons d ds =>
      by_cases hcd : c < d
      · have : ¬ d < c := fun h => absurd (lt_trans hcd h) (lt_irrefl c)
        simp [charListLE, hcd, this] at h2
      · by_cases hdc : d < c
        · simp [charListLE, hcd, hdc] at h1
        · have hc : c = d := Char.le_antisymm (le_of_not_lt hdc) (le_of_not_lt hcd)
          subst hc
          simp only [charListLE, if_neg hcd, if_neg hdc] at h1 h2
          rw [ih h1 h2]

theorem charListLE_trans : ∀ {l₁ l₂ l₃ : List Char},
    charListLE l₁ l₂ = true → charListLE l₂ l₃ = true → charListLE l₁ l₃ = true := by
  intro l₁
  induction l₁ with
  | nil => intro l₂ l₃ _ _; rfl
  | cons c cs ih =>
    intro l₂ l₃ h1 h2
    cases l₂ with
    | nil => simp [charListLE] at h1
    | cons d ds =>
      cases l₃ with
      | nil => simp [charListLE] at h2
      | cons e es =>
        by_cases hcd : c < d
        · by_cases hde : d < e
          · simp [charListLE, lt_trans hcd hde]
          · by_cases hed : e < d
            · simp [charListLE, hde, hed] at h2
            · have : d = e := Char.le_antisymm (le_of_not_lt hed) (le_of_not_lt hde)
              subst this
              simp [charListLE, hcd]
        · by_cases hdc : d < c
          · simp [charListLE, hcd, hdc] at h1
          · have hc : c = d := Char.le_antisymm (le_of_not_lt hdc) (le_of_not_lt hcd)
            subst hc
            simp only [charListLE, if_neg hcd, if_neg hdc] at h1
            by_cases hce : c < e
            · simp [charListLE, hce]
            · by_cases hec : e < c
              · simp [charListLE, hce, hec] at h2
              · simp only [charListLE, if_neg hce, if_neg hec] at h2 ⊢
                exact ih h1 h2

theorem strLE_total (a b : String) : strLE a b = true ∨ strLE b a = true :=
  charListLE_total a.data b.data

theorem strLE_antisymm {a b : String} (h1 : strLE a b = true) (h2 : strLE b a = true) :
    a = b := by
  cases a
  cases b
  exact congrArg String.mk (charListLE_antisymm h1 h2)

theorem strLE_trans {a b c : String} (h1 : strLE a b = true) (h2 : strLE b c = true) :
    strLE a c = true :=
  charListLE_trans h1 h2

@[instance] theorem keyLE_isTotal : IsTotal (String × JValue) keyLE :=
  ⟨fun a b => strLE_total a.1 b.1⟩

@[instance] theorem keyLE_isTrans : IsTrans (String × JValue) keyLE :=
  ⟨fun _ _ _ h h' => strLE_trans h h'⟩

@[instance] theorem keyLT_isAntisymm : IsAntisymm (String × JValue) keyLT :=
  ⟨fun _ _ h h' => absurd (strLE_antisymm h.1 h'.1) h.2⟩

/-! ### Facts about lookups, canonicalization and deep equality -/

theorem lookupKey_mem {k : String} {v : JValue} : ∀ {l : PropMap},
    lookupKey k l = some v → (k, v) ∈ l := by
  intro l h
  induction l with
  | nil => simp [lookupKey] at h
  | cons kv rest ih =>
    by_cases hk : kv.1 = k
    · simp only [lookupKey, if_pos hk] at h
      cases h
      have he : (k, kv.2) = kv := by
        cases kv
        simp_all
      rw [he]
      exact List.mem_cons_self _ _
    · simp only [lookupKey, if_neg hk] at h
      exact List.mem_cons_of_mem _ (ih h)

theorem lookupKey_of_mem_nodup {k : String} {v : JValue} : ∀ {l : PropMap},
    (l.map Prod.fst).Nodup → (k, v) ∈ l → lookupKey k l = some v := by
  intro l hn hm
  induction l with
  | nil => simp at hm
  | cons kv rest ih =>
    simp only [List.map_cons, List.nodup_cons] at hn
    rcases List.mem_cons.mp hm with h | h
    · cases h
      simp [lookupKey]
    · have hne : kv.1 ≠ k := by
        intro he
        exact hn.1 (he ▸ (List.mem_map.mpr ⟨(k, v), h, rfl⟩))
      simp only [lookupKey, if_neg hne]
      exact ih hn.2 h

theorem canonicalizeList_eq_map : ∀ (l : List JValue),
    canonicalizeList l = l.map canonicalize := by
  intro l
  induction l with
  | nil => rfl
  | cons x xs ih => simp [canonicalizeList, ih]

theorem canonicalizeKVs_eq_map : ∀ (l : List (String × JValue)),
    canonicalizeKVs l = l.map (fun kv => (kv.1, canonicalize kv.2)) := by
  intro l
  induction l with
  | nil => rfl
  | cons kv rest ih => simp [canonicalizeKVs, ih]

theorem canonicalizeKVs_map_fst (l : List (String × JValue)) :
    (canonicalizeKVs l).map Prod.fst = l.map Prod.fst := by
  simp [canonicalizeKVs_eq_map]

theorem deepEqualObj_eq_true_iff {a b : List (String × JValue)} :
    deepEqualObj a b = true ↔
      ∀ kv ∈ a, ∃ w, lookupKey kv.1 b = some w ∧ deepEqual kv.2 w = true := by
  induction a with
  | nil => simp [deepEqualObj]
  | cons kv rest ih =>
    rw [deepEqualObj]
    constructor
    · intro h
      have h' := Bool.and_eq_true_iff.mp h
      intro kv' hm
      rcases List.mem_cons.mp hm with h0 | h0
      · subst h0
        cases hl : lookupKey kv'.1 b with
        | none => rw [hl] at h'; exact absurd h'.1 (by simp)
        | some w =>
          rw [hl] at h'
          exact ⟨w, rfl, h'.1⟩
      · exact (ih.mp h'.2) kv' h0
    · intro h
      apply Bool.and_eq_true_iff.mpr
      constructor
      · obtain ⟨w, hw, he⟩ := h kv (List.mem_cons_self kv rest)
        rw [hw]
        exact he
      · exact ih.mpr (fun kv' h' => h kv' (List.mem_cons_of_mem _ h'))

theorem sorted_keyLT_of_sorted_keyLE {l : List (String × JValue)}
    (hs : List.Sorted keyLE l) (hn : (l.map Prod.fst).Nodup) :
    List.Sorted keyLT l := by
  have hpn : l.Pairwise (fun x y : String × JValue => x.1 ≠ y.1) := by
    rw [List.Nodup, List.pairwise_map] at hn
    exact hn
  exact (hs.and hpn).imp (fun h => ⟨h.1, h.2⟩)

theorem wfKVs_iff_forall {l : List (String × JValue)} :
    wfKVs l ↔ ∀ kv ∈ l, wfValue kv.2 := by
  induction l with
  | nil => simp [wfKVs]
  | cons kv rest ih =>
    rw [wfKVs, ih]
    constructor
    · rintro ⟨h1, h2⟩ kv' hm
      rcases List.mem_cons.mp hm with h | h
      · exact h ▸ h1
      · exact h2 kv' h
    · intro h
      exact ⟨h kv (List.mem_cons_self kv rest),
        fun kv' h' => h kv' (List.mem_cons_of_mem _ h')⟩

theorem wfList_iff_forall {l : List JValue} :
    wfList l ↔ ∀ x ∈ l, wfValue x := by
  induction l with
  | nil => simp [wfList]
  | cons x rest ih =>
    rw [wfList, ih]
    constructor
    · rintro ⟨h1, h2⟩ x' hm
      rcases List.mem_cons.mp hm with h | h
      · exact h ▸ h1
      · exact h2 x' h
    · intro h
      exact ⟨h x (List.mem_cons_self x rest),
        fun x' h' => h x' (List.mem_cons_of_mem _ h')⟩

theorem mem_canonicalizeKVs {x : String × JValue} {l : List (String × JValue)} :
    x ∈ canonicalizeKVs l ↔ ∃ kv ∈ l, (kv.1, canonicalize kv.2) = x := by
  rw [canonicalizeKVs_eq_map]
  simp [List.mem_map]

/-- Key step for the sync-hash characterization, object case: two
well-formed objects have the same sorted canonical entry list exactly when
`fast-deep-equal` accepts them. -/
theorem canonObj_iff (a b : List (String × JValue))
    (IH : ∀ kv ∈ a, ∀ w : JValue, wfValue kv.2 → wfValue w →
      (canonicalize kv.2 = canonicalize w ↔ deepEqual kv.2 w = true))
    (hA : (a.map Prod.fst).Nodup) (hwA : wfKVs a)
    (hB : (b.map Prod.fst).Nodup) (hwB : wfKVs b) :
    List.insertionSort keyLE (canonicalizeKVs a) =
        List.insertionSort keyLE (canonicalizeKVs b)
      ↔ (a.length = b.length ∧ deepEqualObj a b = true) := by
  have hAfst : (canonicalizeKVs a).map Prod.fst = a.map Prod.fst :=
    canonicalizeKVs_map_fst a
  have hBfst : (canonicalizeKVs b).map Prod.fst = b.map Prod.fst :=
    canonicalizeKVs_map_fst b
  have hAn : ((canonicalizeKVs a).map Prod.fst).Nodup := hAfst ▸ hA
  have hBn : ((canonicalizeKVs b).map Prod.fst).Nodup := hBfst ▸ hB
  have NA : (canonicalizeKVs a).Nodup := List.Nodup.of_map _ hAn
  have NB : (canonicalizeKVs b).Nodup := List.Nodup.of_map _ hBn
  have permA := List.perm_insertionSort keyLE (canonicalizeKVs a)
  have permB := List.perm_insertionSort keyLE (canonicalizeKVs b)
  have sortedA : List.Sorted keyLT (List.insertionSort keyLE (canonicalizeKVs a)) := by
    refine sorted_keyLT_of_sorted_keyLE (List.sorted_insertionSort keyLE _) ?_
    exact ((permA.map Prod.fst).nodup_iff).mpr hAn
  have sortedB : List.Sorted keyLT (List.insertionSort keyLE (canonicalizeKVs b)) := by
    refine sorted_keyLT_of_sorted_keyLE (List.sorted_insertionSort keyLE _) ?_
    exact ((permB.map Prod.fst).nodup_iff).mpr hBn
  have hlenA : (canonicalizeKVs a).length = a.length := by
    rw [canonicalizeKVs_eq_map, List.length_map]
  have hlenB : (canonicalizeKVs b).length = b.length := by
    rw [canonicalizeKVs_eq_map, List.length_map]
  constructor
  · intro h
    have permAB : List.Perm (canonicalizeKVs a) (canonicalizeKVs b) :=
      (permA.symm.trans (h ▸ permB))
    refine ⟨by rw [← hlenA, permAB.length_eq, hlenB], ?_⟩
    rw [deepEqualObj_eq_true_iff]
    intro kv hkv
    have hmA : (kv.1, canonicalize kv.2) ∈ canonicalizeKVs a :=
      mem_canonicalizeKVs.mpr ⟨kv, hkv, rfl⟩
    have hmB := permAB.mem_iff.mp hmA
    obtain ⟨kv', hkv', heq⟩ := mem_canonicalizeKVs.mp hmB
    have hk : kv'.1 = kv.1 := (Prod.mk.inj heq).1
    have hv : canonicalize kv'.2 = canonicalize kv.2 := (Prod.mk.inj heq).2
    have hmem : (kv.1, kv'.2) ∈ b := by
      have : (kv'.1, kv'.2) ∈ b := by
        cases kv'
        exact hkv'
      rw [hk] at this
      exact this
    refine ⟨kv'.2, lookupKey_of_mem_nodup hB hmem, ?_⟩
    exact (IH kv hkv kv'.2 (wfKVs_iff_forall.mp hwA kv hkv)
      (wfKVs_iff_forall.mp hwB kv' hkv')).mp hv.symm
  · rintro ⟨hlen, hdeq⟩
    have hchar := deepEqualObj_eq_true_iff.mp hdeq
    have hkeysub : (a.map Prod.fst).toFinset ⊆ (b.map Prod.fst).toFinset := by
      intro k hk
      rw [List.mem_toFinset] at hk ⊢
      obtain ⟨kv, hkv, hke⟩ := List.mem_map.mp hk
      obtain ⟨w, hw, _⟩ := hchar kv hkv
      have := lookupKey_mem hw
      exact hke ▸ List.mem_map.mpr ⟨(kv.1, w), this, rfl⟩
    have hkeyeq : (a.map Prod.fst).toFinset = (b.map Prod.fst).toFinset := by
      refine Finset.eq_of_subset_of_card_le hkeysub ?_
      rw [List.toFinset_card_of_nodup hA, List.toFinset_card_of_nodup hB]
      simp [hlen]
    have hmemiff : ∀ x, x ∈ canonicalizeKVs a ↔ x ∈ canonicalizeKVs b := by
      intro x
      constructor
      · intro hx
        obtain ⟨kv, hkv, hke⟩ := mem_canonicalizeKVs.mp hx
        obtain ⟨w, hw, hde⟩ := hchar kv hkv
        have hv : canonicalize kv.2 = canonicalize w := by
          refine (IH kv hkv w (wfKVs_iff_forall.mp hwA kv hkv) ?_).mpr hde
          exact wfKVs_iff_forall.mp hwB _ (lookupKey_mem hw)
        refine mem_canonicalizeKVs.mpr ⟨(kv.1, w), lookupKey_mem hw, ?_⟩
        rw [← hke]
        simp [hv]
      · intro hx
        obtain ⟨kv', hkv', hke⟩ := mem_canonicalizeKVs.mp hx
        have hkb : kv'.1 ∈ (b.map Prod.fst).toFinset := by
          rw [List.mem_toFinset]
          exact List.mem_map.mpr ⟨kv', hkv', rfl⟩
        have hka : kv'.1 ∈ a.map Prod.fst := by
          rw [← List.mem_toFinset, hkeyeq]
          exact hkb
        obtain ⟨kv, hkv, hkeq⟩ := List.mem_map.mp hka
        obtain ⟨w, hw, hde⟩ := hchar kv hkv
        have hwb : lookupKey kv'.1 b = some kv'.2 := by
          refine lookupKey_of_mem_nodup hB ?_
          cases kv'
          exact hkv'
        rw [hkeq] at hw
        rw [hwb] at hw
        cases hw
        have hv : canonicalize kv.2 = canonicalize kv'.2 := by
          refine (IH kv hkv kv'.2 (wfKVs_iff_forall.mp hwA kv hkv) ?_).mpr hde
          exact wfKVs_iff_forall.mp hwB kv' hkv'
        refine mem_canonicalizeKVs.mpr ⟨kv, hkv, ?_⟩
        rw [← hke, hv, hkeq]
    have permAB : List.Perm (canonicalizeKVs a) (canonicalizeKVs b) :=
      (List.perm_ext_iff_of_nodup NA NB).mpr hmemiff
    exact List.eq_of_perm_of_sorted
      (permA.trans (permAB.trans permB.symm)) sortedA sortedB

/-- Key step, array case. -/
theorem canonList_iff : ∀ (xs : List JValue),
    (∀ x ∈ xs, ∀ y : JValue, wfValue x → wfValue y →
      (canonicalize x = canonicalize y ↔ deepEqual x y = true)) →
    wfList xs → ∀ (ys : List JValue), wfList ys →
    (canonicalizeList xs = canonicalizeList ys ↔
      (xs.length = ys.length ∧ deepEqualList xs ys = true)) := by
  intro xs
  induction xs with
  | nil =>
    intro _ _ ys _
    cases ys <;> simp [canonicalizeList, deepEqualList]
  | cons x xs ih =>
    intro IH hx ys hy
    cases ys with
    | nil => simp [canonicalizeList, deepEqualList]
    | cons y ys' =>
      have h1 := IH x (List.mem_cons_self x xs) y hx.1 hy.1
      have h2 := ih (fun z hz => IH z (List.mem_cons_of_mem _ hz)) hx.2 ys' hy.2
      simp only [canonicalizeList, deepEqualList, List.cons.injEq, List.length_cons,
        Nat.succ.injEq, Bool.and_eq_true]
      rw [h1, h2]
      tauto

theorem sizeOf_lt_of_mem_arr {x : JValue} {xs : List JValue} (h : x ∈ xs) :
    sizeOf x < sizeOf (JValue.arr xs) := by
  have h1 := List.sizeOf_lt_sizeOf_of_mem h
  have h2 : sizeOf (JValue.arr xs) = 1 + sizeOf xs := by simp
  omega

theorem sizeOf_snd_lt_of_mem_obj {kv : String × JValue} {l : List (String × JValue)}
    (h : kv ∈ l) : sizeOf kv.2 < sizeOf (JValue.obj l) := by
  have h1 := List.sizeOf_lt_sizeOf_of_mem h
  have h2 : sizeOf (JValue.obj l) = 1 + sizeOf l := by simp
  have h3 : sizeOf kv.2 < sizeOf kv := by
    obtain ⟨k, v⟩ := kv
    simp only [Prod.mk.sizeOf_spec]
    omega
  omega

theorem canonicalize_eq_iff_deepEqual_aux : ∀ (n : Nat) (a b : JValue),
    sizeOf a ≤ n → wfValue a → wfValue b →
    (canonicalize a = canonicalize b ↔ deepEqual a b = true) := by
  intro n
  induction n using Nat.strong_induction_on with
  | _ n IHn =>
    intro a b hsz ha hb
    cases a with
    | null => cases b <;> simp [canonicalize, deepEqual]
    | bool x => cases b <;> simp [canonicalize, deepEqual]
    | num x => cases b <;> simp [canonicalize, deepEqual]
    | str x => cases b <;> simp [canonicalize, deepEqual]
    | arr xs =>
      cases b with
      | arr ys =>
        have IHe : ∀ x ∈ xs, ∀ y : JValue, wfValue x → wfValue y →
            (canonicalize x = canonicalize y ↔ deepEqual x y = true) := by
          intro x hx y hwx hwy
          exact IHn (sizeOf x) (lt_of_lt_of_le (sizeOf_lt_of_mem_arr hx) hsz)
            x y le_rfl hwx hwy
        have h := canonList_iff xs IHe ha ys hb
        simp only [canonicalize, deepEqual, JValue.arr.injEq, Bool.and_eq_true,
          decide_eq_true_eq]
        exact h
      | null => simp [canonicalize, deepEqual]
      | bool y => simp [canonicalize, deepEqual]
      | num y => simp [canonicalize, deepEqual]
      | str y => simp [canonicalize, deepEqual]
      | obj B => simp [canonicalize, deepEqual]
    | obj A =>
      cases b with
      | obj B =>
        have IHe : ∀ kv ∈ A, ∀ w : JValue, wfValue kv.2 → wfValue w →
            (canonicalize kv.2 = canonicalize w ↔ deepEqual kv.2 w = true) := by
          intro kv hkv w hwk hww
          exact IHn (sizeOf kv.2) (lt_of_lt_of_le (sizeOf_snd_lt_of_mem_obj hkv) hsz)
            kv.2 w le_rfl hwk hww
        rw [wfValue] at ha hb
        have h := canonObj_iff A B IHe ha.1 ha.2 hb.1 hb.2
        simp only [canonicalize, deepEqual, JValue.obj.injEq, Bool.and_eq_true,
          decide_eq_true_eq]
        exact h
      | null => simp [canonicalize, deepEqual]
      | bool y => simp [canonicalize, deepEqual]
      | num y => simp [canonicalize, deepEqual]
      | str y => simp [canonicalize, deepEqual]
      | arr ys => simp [canonicalize, deepEqual]

/-- The canonical serialization of a well-formed JS value determines it up to
`fast-deep-equal` and vice versa. -/
theorem canonicalize_eq_iff_deepEqual {a b : JValue} (ha : wfValue a) (hb : wfValue b) :
    canonicalize a = canonicalize b ↔ deepEqual a b = true :=
  canonicalize_eq_iff_deepEqual_aux (sizeOf a) a b le_rfl ha hb

theorem wfValue_obj_filter {s : PropMap} (p : String × JValue → Bool)
    (h : wfValue (.obj s)) : wfValue (.obj (s.filter p)) := by
  rw [wfValue] at h ⊢
  refine ⟨?_, ?_⟩
  · exact List.Nodup.sublist (List.Sublist.map _ (List.filter_sublist s)) h.1
  · rw [wfKVs_iff_forall]
    intro kv hkv
    exact wfKVs_iff_forall.mp h.2 kv (List.mem_of_mem_filter hkv)

/-- C5: for all states s and s2, computeSyncHash(s) = computeSyncHash(s2)
if and only if the projections of s and s2 onto keys not beginning with an
underscore are deep-equal; in particular the hash is deterministic and
ignores all temporal metadata. -/
theorem C5_computeSyncHash_eq_iff_userProps_deepEqual (s s' : PropMap)
    (hs : wfValue (.obj s)) (hs' : wfValue (.obj s')) :
    computeSyncHash s = computeSyncHash s' ↔
      deepEqual (.obj (stripMeta s)) (.obj (stripMeta s')) = true := by
  have h1 : wfValue (.obj (stripMeta s)) := wfValue_obj_filter _ hs
  have h2 : wfValue (.obj (stripMeta s')) := wfValue_obj_filter _ hs'
  exact canonicalize_eq_iff_deepEqual h1 h2

/-- Witness for C5 at concrete states: two states that differ only in
temporal metadata hash identically. -/
theorem C5_witness :
    wfValue (.obj [("_version", JValue.num 1), ("name", JValue.str "Alice")]) ∧
    computeSyncHash [("_version", JValue.num 1), ("name", JValue.str "Alice")] =
      computeSyncHash [("_version", JValue.num 2), ("name", JValue.str "Alice")] :=
  ⟨by decide,
    (C5_computeSyncHash_eq_iff_userProps_deepEqual
      [("_version", JValue.num 1), ("name", JValue.str "Alice")]
      [("_version", JValue.num 2), ("name", JValue.str "Alice")]
      (by decide) (by decide)).mpr (by decide)⟩

theorem mem_jsDedupGo {x : String} : ∀ {l seen : List String},
    x ∈ jsDedupGo seen l ↔ (x ∈ l ∧ x ∉ seen) := by
  intro l
  induction l with
  | nil => intro seen; simp [jsDedupGo]
  | cons y ys ih =>
    intro seen
    by_cases hy : y ∈ seen
    · rw [jsDedupGo, if_pos hy, ih]
      constructor
      · rintro ⟨h1, h2⟩
        exact ⟨List.mem_cons_of_mem _ h1, h2⟩
      · rintro ⟨h1, h2⟩
        rcases List.mem_cons.mp h1 with h | h
        · exact absurd (h ▸ hy) h2
        · exact ⟨h, h2⟩
    · rw [jsDedupGo, if_neg hy]
      constructor
      · intro h
        rcases List.mem_cons.mp h with h | h
        · exact ⟨h ▸ List.mem_cons_self y ys, h ▸ hy⟩
        · rw [ih] at h
          refine ⟨List.mem_cons_of_mem _ h.1, fun hs => h.2 (List.mem_cons_of_mem _ hs)⟩
      · rintro ⟨h1, h2⟩
        rcases List.mem_cons.mp h1 with h | h
        · exact h ▸ List.mem_cons_self y _
        · by_cases hxy : x = y
          · exact hxy ▸ List.mem_cons_self y _
          · refine List.mem_cons_of_mem _ (ih.mpr ⟨h, fun hs => ?_⟩)
            rcases List.mem_cons.mp hs with h' | h'
            · exact hxy h'
            · exact h2 h'

theorem mem_jsDedup {x : String} {l : List String} : x ∈ jsDedup l ↔ x ∈ l := by
  rw [jsDedup, mem_jsDedupGo]
  simp

theorem jsDedupGo_nodup : ∀ (l seen : List String), (jsDedupGo seen l).Nodup := by
  intro l
  induction l with
  | nil => intro seen; simp [jsDedupGo]
  | cons y ys ih =>
    intro seen
    by_cases hy : y ∈ seen
    · rw [jsDedupGo, if_pos hy]
      exact ih seen
    · rw [jsDedupGo, if_neg hy]
      refine List.nodup_cons.mpr ⟨fun hmem => ?_, ih _⟩
      exact (mem_jsDedupGo.mp hmem).2 (List.mem_cons_self y seen)

theorem jsDedup_nodup (l : List String) : (jsDedup l).Nodup := jsDedupGo_nodup l []

theorem nodup_map_of_filterMap {α β : Type} {f : α → Option β} {g : β → α}
    {l : List α} (hl : l.Nodup) (hf : ∀ a b, f a = some b → g b = a) :
    ((l.filterMap f).map g).Nodup := by
  induction l with
  | nil => simp
  | cons a l ih =>
    rw [List.filterMap_cons]
    rcases List.nodup_cons.mp hl with ⟨ha, hl'⟩
    cases hfa : f a with
    | none => exact ih hl'
    | some b =>
      rw [List.map_cons]
      refine List.nodup_cons.mpr ⟨fun hmem => ?_, ih hl'⟩
      obtain ⟨b', hb', hgb'⟩ := List.mem_map.mp hmem
      obtain ⟨a', ha', hfa'⟩ := List.mem_filterMap.mp hb'
      have : a' = a := by
        rw [← hf a' b' hfa', hgb', hf a b hfa]
      exact ha (this ▸ ha')

theorem diffStates_mem_changes {entityId : String} {oldState newState : PropMap}
    {c : PropertyChange} :
    c ∈ (diffStates entityId oldState newState).changes ↔
      (c.property ∉ SKIP_KEYS ∧
       (c.property ∈ oldState.map Prod.fst ∨ c.property ∈ newState.map Prod.fst) ∧
       deepEqualOpt (lookupKey c.property oldState) (lookupKey c.property newState) = false ∧
       c.old = lookupKey c.property oldState ∧
       c.new = lookupKey c.property newState) := by
  rw [diffStates]
  simp only [List.mem_filterMap]
  constructor
  · rintro ⟨key, hk, hf⟩
    by_cases hskip : key ∈ SKIP_KEYS
    · rw [if_pos hskip] at hf
      exact absurd hf (by simp)
    · rw [if_neg hskip] at hf
      by_cases heq : deepEqualOpt (lookupKey key oldState) (lookupKey key newState) = true
      · rw [if_pos heq] at hf
        exact absurd hf (by simp)
      · rw [if_neg heq] at hf
        have hc := Option.some.inj hf
        subst hc
        have hmem := mem_jsDedup.mp hk
        refine ⟨hskip, ?_, Bool.eq_false_iff.mpr heq, rfl, rfl⟩
        rcases List.mem_append.mp hmem with h | h
        · exact Or.inl h
        · exact Or.inr h
  · rintro ⟨hskip, hmem, heq, hold, hnew⟩
    refine ⟨c.property, ?_, ?_⟩
    · rw [diffAllKeys, mem_jsDedup, List.mem_append]
      tauto
    · rw [if_neg hskip, if_neg (by simp [heq])]
      obtain ⟨p, o, n⟩ := c
      simp only at hold hnew ⊢
      rw [hold, hnew]

/-- C6 as stated fails: `diffStates` skips only the six fixed temporal
keys, so an underscore-prefixed key outside that list (here `_custom`)
appears in the diff output. -/
theorem C6_counterexample :
    (diffStates "e1" [("_custom", JValue.num 1)] [("_custom", JValue.num 2)]).changes =
      [{ property := "_custom", old := some (JValue.num 1),
         new := some (JValue.num 2) }] ∧
    startsWithUnderscore "_custom" = true := by
  decide

/-- C6 (amended): `diffStates` skips exactly the six temporal keys in
SKIP_KEYS (not every underscore-prefixed key); the result contains one
change per remaining key present on either side whose values are not
deep-structurally equal, recorded as {property, old, new} with `undefined`
on a missing side, and no key is reported twice. -/
theorem C6_diffStates_changes_characterization (entityId : String)
    (oldState newState : PropMap) :
    (∀ p : String,
      ((∃ c ∈ (diffStates entityId oldState newState).changes, c.property = p) ↔
        (p ∉ SKIP_KEYS ∧
         (p ∈ oldState.map Prod.fst ∨ p ∈ newState.map Prod.fst) ∧
         deepEqualOpt (lookupKey p oldState) (lookupKey p newState) = false))) ∧
    (∀ c ∈ (diffStates entityId oldState newState).changes,
      c.old = lookupKey c.property oldState ∧
      c.new = lookupKey c.property newState) ∧
    ((diffStates entityId oldState newState).changes.map
      (fun c => c.property)).Nodup := by
  refine ⟨?_, ?_, ?_⟩
  · intro p
    constructor
    · rintro ⟨c, hc, hp⟩
      have h := diffStates_mem_changes.mp hc
      exact hp ▸ ⟨h.1, h.2.1, h.2.2.1⟩
    · rintro ⟨h1, h2, h3⟩
      exact ⟨{ property := p, old := lookupKey p oldState, new := lookupKey p newState },
        diffStates_mem_changes.mpr ⟨h1, h2, h3, rfl, rfl⟩, rfl⟩
  · intro c hc
    have h := diffStates_mem_changes.mp hc
    exact ⟨h.2.2.2.1, h.2.2.2.2⟩
  · rw [diffStates]
    refine nodup_map_of_filterMap (jsDedup_nodup _) ?_
    intro key c hf
    by_cases hskip : key ∈ SKIP_KEYS
    · rw [if_pos hskip] at hf
      exact absurd hf (by simp)
    · rw [if_neg hskip] at hf
      by_cases heq : deepEqualOpt (lookupKey key oldState) (lookupKey key newState) = true
      · rw [if_pos heq] at hf
        exact absurd hf (by simp)
      · rw [if_neg heq] at hf
        have hc := Option.some.inj hf
        rw [← hc]

theorem jsMapSet_fresh {α : Type} {m : List (String × α)} {k : String} {v : α}
    (h : ∀ q ∈ m, q.1 ≠ k) : jsMapSet m k v = m ++ [(k, v)] := by
  have hany : m.any (fun q => q.1 = k) = false := by
    rw [List.any_eq_false]
    intro q hq
    simp [h q hq]
  rw [jsMapSet, hany]
  simp

theorem jsMapFromList_go {α : Type} : ∀ (ps acc : List (String × α)),
    ((acc ++ ps).map Prod.fst).Nodup →
    ps.foldl (fun m p => jsMapSet m p.1 p.2) acc = acc ++ ps := by
  intro ps
  induction ps with
  | nil => intro acc _; simp
  | cons p ps ih =>
    intro acc hn
    have hfresh : ∀ q ∈ acc, q.1 ≠ p.1 := by
      intro q hq
      rw [List.map_append, List.nodup_append] at hn
      intro he
      refine hn.2.2 (List.mem_map.mpr ⟨q, hq, rfl⟩) ?_
      rw [he]
      exact List.mem_map.mpr ⟨p, List.mem_cons_self p ps, rfl⟩
    rw [List.foldl_cons, jsMapSet_fresh hfresh]
    have hn' : (((acc ++ [p]) ++ ps).map Prod.fst).Nodup := by
      rw [List.append_assoc]
      simpa using hn
    rw [ih (acc ++ [p]) hn']
    simp

theorem jsMapFromList_eq_self {α : Type} {ps : List (String × α)}
    (h : (ps.map Prod.fst).Nodup) : jsMapFromList ps = ps := by
  have := jsMapFromList_go ps [] (by simpa using h)
  simpa [jsMapFromList] using this

theorem jsMapHas_iff {α : Type} {m : List (String × α)} {k : String} :
    jsMapHas m k = true ↔ k ∈ m.map Prod.fst := by
  rw [jsMapHas, List.any_eq_true]
  simp [List.mem_map]

theorem jsMapGet_eq_none {α : Type} {m : List (String × α)} {k : String}
    (h : k ∉ m.map Prod.fst) : jsMapGet m k = none := by
  rw [jsMapGet, List.find?_eq_none.mpr]
  · rfl
  · intro q hq
    simp only [decide_eq_true_eq]
    intro he
    exact h (List.mem_map.mpr ⟨q, hq, he⟩)

theorem jsMapGet_of_mem_nodup {α : Type} : ∀ {m : List (String × α)},
    (m.map Prod.fst).Nodup → ∀ {k : String} {v : α}, (k, v) ∈ m →
    jsMapGet m k = some v := by
  intro m
  induction m with
  | nil => intro _ k v hm; simp at hm
  | cons q rest ih =>
    intro hn k v hm
    rw [List.map_cons, List.nodup_cons] at hn
    rcases List.mem_cons.mp hm with h | h
    · rw [← h]
      rw [jsMapGet, List.find?_cons_of_pos _ (by simp)]
      rfl
    · have hne : ¬ (q.1 = k) := by
        intro he
        exact hn.1 (he ▸ List.mem_map.mpr ⟨(k, v), h, rfl⟩)
      rw [jsMapGet, List.find?_cons_of_neg _ (by simpa using hne)]
      exact ih hn.2 h

theorem filter_filterMap_key_nil {α : Type} {pairs : List (String × α)}
    {f : String × α → Option Change} {id : String}
    (hf : ∀ p c, f p = some c → c.entityId = p.1)
    (hnone : ∀ p ∈ pairs, p.1 = id → f p = none) :
    (pairs.filterMap f).filter (fun c => c.entityId = id) = [] := by
  rw [List.filter_eq_nil_iff]
  intro c hc
  obtain ⟨p, hp, hfp⟩ := List.mem_filterMap.mp hc
  simp only [decide_eq_true_eq]
  intro hceq
  have := hnone p hp ((hf p c hfp) ▸ hceq)
  rw [this] at hfp
  exact Option.noConfusion hfp

theorem filter_filterMap_key {α : Type} : ∀ {pairs : List (String × α)}
    {f : String × α → Option Change} {id : String} {x : α},
    (pairs.map Prod.fst).Nodup → (id, x) ∈ pairs →
    (∀ p c, f p = some c → c.entityId = p.1) →
    (pairs.filterMap f).filter (fun c => c.entityId = id) = (f (id, x)).toList := by
  intro pairs
  induction pairs with
  | nil => intro f id x _ hm _; simp at hm
  | cons q qs ih =>
    intro f id x hn hm hf
    rw [List.map_cons, List.nodup_cons] at hn
    rcases List.mem_cons.mp hm with hq | hq
    · have hqs_none : ∀ p ∈ qs, p.1 = id → f p = none := by
        intro p hp hpid
        exfalso
        refine hn.1 ?_
        have : q.1 = id := by rw [← hq]
        rw [this, ← hpid]
        exact List.mem_map.mpr ⟨p, hp, rfl⟩
      rw [List.filterMap_cons]
      cases hfq : f q with
      | none =>
        rw [← hq] at hfq
        rw [hfq, filter_filterMap_key_nil hf hqs_none]
        rfl
      | some c =>
        have hcid : c.entityId = id := by
          rw [hf q c hfq, ← hq]
        rw [List.filter_cons_of_pos (by simp [hcid]),
          filter_filterMap_key_nil hf hqs_none, ← hq] at *
        rw [hfq]
        rfl
    · have hqid : ¬ (q.1 = id) := by
        intro he
        refine hn.1 ?_
        rw [he]
        exact List.mem_map.mpr ⟨(id, x), hq, rfl⟩
      rw [List.filterMap_cons]
      cases hfq : f q with
      | none => exact ih hn.2 hq hf
      | some c =>
        have hcid : ¬ (c.entityId = id) := by
          rw [hf q c hfq]
          exact hqid
        rw [List.filter_cons_of_neg (by simpa using hcid)]
        exact ih hn.2 hq hf

/-- C3: for an entity id present on both sides of a sync (nodup ids on each
side), the changeset contains no change for it when the recomputed graph
sync hash equals the doc frontmatter hash and the stripped property maps
are deep-equal; exactly one update change carrying the doc properties (to
be applied to the graph) when the hashes agree but the maps differ; and
exactly one conflict change when the hashes differ. -/
theorem C3_computeChanges_both_sides_classification
    (graphEntities : List EntityWithState) (docs : List ParsedDoc)
    (e : EntityWithState) (d : ParsedDoc) (id : String)
    (hg : (graphEntities.map (fun e => e.entity.id)).Nodup)
    (hd : (docs.map (fun d => d.fmId)).Nodup)
    (he : e ∈ graphEntities) (heid : e.entity.id = id)
    (hdmem : d ∈ docs) (hdid : d.fmId = id) :
    (computeChanges graphEntities docs).filter (fun c => c.entityId = id) =
      (if some (computeSyncHash e.state) = d.fmSyncHash then
        (if deepEqual (.obj (stripMeta e.state)) (.obj (extractProperties d.frontmatter))
         then ([] : List Change)
         else [{ type := .update, entityId := id, label := e.entity.label,
                 graphProperties := some (stripMeta e.state),
                 docProperties := some (extractProperties d.frontmatter),
                 filePath := some d.filePath, hashMatch := some false,
                 graphHash := none, docHash := none }])
       else [{ type := .conflict, entityId := id, label := e.entity.label,
               graphProperties := some (stripMeta e.state),
               docProperties := some (extractProperties d.frontmatter),
               filePath := some d.filePath, hashMatch := some false,
               graphHash := some (computeSyncHash e.state),
               docHash := d.fmSyncHash }]) := by
  have hgp : ((graphEntities.map (fun e => (e.entity.id, e))).map Prod.fst).Nodup := by
    rw [List.map_map]
    exact hg
  have hdp : ((docs.map (fun d => (d.fmId, d))).map Prod.fst).Nodup := by
    rw [List.map_map]
    exact hd
  have hgm : jsMapFromList (graphEntities.map (fun e => (e.entity.id, e))) =
      graphEntities.map (fun e => (e.entity.id, e)) := jsMapFromList_eq_self hgp
  have hdm' : jsMapFromList (docs.map (fun d => (d.fmId, d))) =
      docs.map (fun d => (d.fmId, d)) := jsMapFromList_eq_self hdp
  have hidin : id ∈ (docs.map (fun d => (d.fmId, d))).map Prod.fst := by
    rw [List.map_map]
    exact List.mem_map.mpr ⟨d, hdmem, hdid⟩
  have hidgr : id ∈ (graphEntities.map (fun e => (e.entity.id, e))).map Prod.fst := by
    rw [List.map_map]
    exact List.mem_map.mpr ⟨e, he, heid⟩
  have hget : jsMapGet (docs.map (fun d => (d.fmId, d))) id = some d :=
    jsMapGet_of_mem_nodup hdp (List.mem_map.mpr ⟨d, hdmem, by rw [hdid]⟩)
  rw [computeChanges, hgm, hdm', List.filter_append, List.filter_append]
  have h1 : ((graphEntities.map (fun e => (e.entity.id, e))).filterMap
      (fun p => if jsMapHas (docs.map (fun d => (d.fmId, d))) p.1 then none
        else some ({ type := .create, entityId := p.1, label := p.2.entity.label,
                      graphProperties := some (stripMeta p.2.state),
                      docProperties := none, filePath := none, hashMatch := none,
                      graphHash := none, docHash := none } : Change))).filter
      (fun c => c.entityId = id) = [] := by
    refine filter_filterMap_key_nil ?_ ?_
    · intro p c h
      simp only [] at h
      by_cases hh : jsMapHas (docs.map (fun d => (d.fmId, d))) p.1 = true
      · rw [if_pos hh] at h
        exact Option.noConfusion h
      · rw [if_neg hh] at h
        cases h
        rfl
    · intro p _ hpid
      rw [if_pos (hpid ▸ jsMapHas_iff.mpr hidin)]
  have h2 : ((docs.map (fun d => (d.fmId, d))).filterMap
      (fun p => if jsMapHas (graphEntities.map (fun e => (e.entity.id, e))) p.1 then none
        else some ({ type := .create, entityId := p.1, label := p.2.fmLabel,
                      graphProperties := none,
                      docProperties := some (extractProperties p.2.frontmatter),
                      filePath := some p.2.filePath, hashMatch := none,
                      graphHash := none, docHash := none } : Change))).filter
      (fun c => c.entityId = id) = [] := by
    refine filter_filterMap_key_nil ?_ ?_
    · intro p c h
      simp only [] at h
      by_cases hh : jsMapHas (graphEntities.map (fun e => (e.entity.id, e))) p.1 = true
      · rw [if_pos hh] at h
        exact Option.noConfusion h
      · rw [if_neg hh] at h
        cases h
        rfl
    · intro p _ hpid
      rw [if_pos (hpid ▸ jsMapHas_iff.mpr hidgr)]
  have h3 := filter_filterMap_key (f := fun p : String × EntityWithState =>
      match jsMapGet (docs.map (fun d => (d.fmId, d))) p.1 with
      | none => none
      | some doc =>
        if some (computeSyncHash p.2.state) = doc.fmSyncHash then
          if deepEqual (.obj (stripMeta p.2.state))
              (.obj (extractProperties doc.frontmatter)) then none
          else some { type := .update, entityId := p.1, label := p.2.entity.label,
                      graphProperties := some (stripMeta p.2.state),
                      docProperties := some (extractProperties doc.frontmatter),
                      filePath := some doc.filePath, hashMatch := some false,
                      graphHash := none, docHash := none }
        else some { type := .conflict, entityId := p.1, label := p.2.entity.label,
                    graphProperties := some (stripMeta p.2.state),
                    docProperties := some (extractProperties doc.frontmatter),
                    filePath := some doc.filePath, hashMatch := some false,
                    graphHash := some (computeSyncHash p.2.state),
                    docHash := doc.fmSyncHash })
    hgp (List.mem_map.mpr ⟨e, he, by rw [heid]⟩)
    (by
      intro p c h
      simp only [] at h
      split at h
      · exact Option.noConfusion h
      · split at h
        · split at h
          · exact Option.noConfusion h
          · cases h
            rfl
        · cases h
          rfl)
  rw [h1, h2, h3]
  simp only [List.nil_append]
  rw [hget]
  by_cases hhash : some (computeSyncHash e.state) = d.fmSyncHash
  · by_cases hprops : deepEqual (.obj (stripMeta e.state))
        (.obj (extractProperties d.frontmatter)) = true
    · simp [hhash, hprops]
    · simp [hhash, hprops]
  · simp [hhash]

/-- Witness for C3 at a concrete pair: one entity on both sides with a stale
doc hash produces exactly one conflict change. -/
theorem C3_witness :
    (computeChanges
      [{ entity := { id := "e1", label := "Person", createdAt := "t0" },
         state := [("_version", JValue.num 1), ("name", JValue.str "Alice")] }]
      [{ filePath := "/docs/Person/e1.md", relativePath := "Person/e1.md",
         fmId := "e1", fmLabel := "Person", fmSyncHash := some (JValue.str "stale"),
         frontmatter := [("_id", JValue.str "e1"), ("name", JValue.str "Bob")],
         content := "" }]).filter (fun c => c.entityId = "e1") =
      [{ type := .conflict, entityId := "e1", label := "Person",
         graphProperties := some [("name", JValue.str "Alice")],
         docProperties := some [("name", JValue.str "Bob")],
         filePath := some "/docs/Person/e1.md", hashMatch := some false,
         graphHash := some (computeSyncHash
           [("_version", JValue.num 1), ("name", JValue.str "Alice")]),
         docHash := some (JValue.str "stale") }] := by
  have h := C3_computeChanges_both_sides_classification
    [{ entity := { id := "e1", label := "Person", createdAt := "t0" },
       state := [("_version", JValue.num 1), ("name", JValue.str "Alice")] }]
    [{ filePath := "/docs/Person/e1.md", relativePath := "Person/e1.md",
       fmId := "e1", fmLabel := "Person", fmSyncHash := some (JValue.str "stale"),
       frontmatter := [("_id", JValue.str "e1"), ("name", JValue.str "Bob")],
       content := "" }]
    { entity := { id := "e1", label := "Person", createdAt := "t0" },
      state := [("_version", JValue.num 1), ("name", JValue.str "Alice")] }
    { filePath := "/docs/Person/e1.md", relativePath := "Person/e1.md",
      fmId := "e1", fmLabel := "Person", fmSyncHash := some (JValue.str "stale"),
      frontmatter := [("_id", JValue.str "e1"), ("name", JValue.str "Bob")],
      content := "" }
    "e1" (by decide) (by decide) (by decide) rfl (by decide) rfl
  rw [h]
  decide

theorem getLast?_mem {α : Type} {l : List α} {x : α} (h : l.getLast? = some x) :
    x ∈ l := by
  obtain ⟨hne, he⟩ := List.mem_getLast?_eq_getLast (Option.mem_def.mpr h)
  rw [he]
  exact List.getLast_mem hne

theorem find?_nid_of_mem : ∀ {l : List StateNode},
    List.Pairwise (fun s t : StateNode => s.nid < t.nid) l →
    ∀ {x : StateNode}, x ∈ l → l.find? (fun s => s.nid = x.nid) = some x := by
  intro l
  induction l with
  | nil => intro _ x hx; simp at hx
  | cons y ys ih =>
    intro hp x hx
    rcases List.mem_cons.mp hx with h | h
    · rw [h, List.find?_cons_of_pos _ (by simp)]
    · have hlt : y.nid < x.nid := (List.pairwise_cons.mp hp).1 x h
      have hne : ¬ (y.nid = x.nid) := Nat.ne_of_lt hlt
      rw [List.find?_cons_of_neg _ (by simpa using hne)]
      exact ih (List.pairwise_cons.mp hp).2 h

theorem tail_zip_concat {α : Type} : ∀ {l : List α} {y : α} (x : α),
    l.getLast? = some y →
    ((l ++ [x]).tail).zip (l ++ [x]) = (l.tail.zip l) ++ [(x, y)] := by
  intro l
  induction l with
  | nil => intro y x h; simp at h
  | cons a t ih =>
    intro y x h
    cases t with
    | nil =>
      simp only [List.getLast?_singleton] at h
      cases h
      simp
    | cons b t' =>
      rw [List.getLast?_cons_cons] at h
      have hih := ih x h
      simp only [List.cons_append, List.tail_cons, List.zip_cons_cons] at hih ⊢
      rw [hih]

theorem range'_concat_general : ∀ (n s : Nat),
    List.range' s (n + 1) = List.range' s n ++ [s + n] := by
  intro n
  induction n with
  | zero => intro s; simp [List.range']
  | succ m ih =>
    intro s
    rw [List.range'_succ, ih (s + 1), List.range'_succ]
    have he : s + 1 + m = s + (m + 1) := by omega
    rw [he]
    simp

theorem range'_one_concat (n : Nat) :
    List.range' 1 (n + 1) = List.range' 1 n ++ [n + 1] := by
  rw [range'_concat_general n 1]
  have he : 1 + n = n + 1 := by omega
  rw [he]

theorem range'_one_getLast? (n : Nat) :
    (List.range' 1 (n + 1)).getLast? = some (n + 1) := by
  rw [range'_one_concat]
  exact List.getLast?_concat _

theorem map_close_nid (l : List StateNode) (nid0 : Nat) (now : String) :
    (l.map (fun t => if t.nid = nid0 then { t with validTo := some now } else t)).map
        (fun s => s.nid) = l.map (fun s => s.nid) := by
  rw [List.map_map]
  apply List.map_congr_left
  intro t _
  by_cases h : t.nid = nid0 <;> simp [h]

theorem map_close_version (l : List StateNode) (nid0 : Nat) (now : String) :
    (l.map (fun t => if t.nid = nid0 then { t with validTo := some now } else t)).map
        (fun s => s.version) = l.map (fun s => s.version) := by
  rw [List.map_map]
  apply List.map_congr_left
  intro t _
  by_cases h : t.nid = nid0 <;> simp [h]

theorem currentMatches_of_chainInv {st : Store} {id : String}
    {e : EntityNode} {sl : StateNode}
    (hent : st.entities = [e]) (heid : e.id = id)
    (hpw : List.Pairwise (fun s t : StateNode => s.nid < t.nid) st.states)
    (hlast : st.states.getLast? = some sl)
    (hcur : st.currentRel = [(e.nid, sl.nid)]) :
    currentMatches st id = [(e.nid, sl.nid)] ∧
    entityByNid st e.nid = some e ∧ stateByNid st sl.nid = some sl := by
  have hebn : entityByNid st e.nid = some e := by
    rw [entityByNid, hent, List.find?_cons_of_pos _ (by simp)]
  have hsbn : stateByNid st sl.nid = some sl :=
    find?_nid_of_mem hpw (getLast?_mem hlast)
  refine ⟨?_, hebn, hsbn⟩
  rw [currentMatches, hcur, List.filter_cons_of_pos]
  · rfl
  · simp only [hebn, hsbn]
    simp [heid]

theorem chainInv_create (a : CreateEntityArgs) :
    ChainInv (createEntity Store.empty a) a.id ∧
    (createEntity Store.empty a).states.length = 1 := by
  refine ⟨⟨⟨0, a.id, a.label, a.now, none, none⟩,
    ⟨1, a.id, a.now, none, a.now, 1, a.actor, a.properties⟩,
    rfl, rfl, ?_, ?_, ?_, ?_, ?_, rfl, rfl, ?_, rfl, rfl⟩, rfl⟩
  · simp [createEntity, Store.empty]
  · intro s hs
    simp only [createEntity, Store.empty, List.nil_append, List.mem_singleton] at hs
    rw [hs]
  · simp [createEntity, Store.empty, List.range']
  · simp [createEntity, Store.empty]
  · intro s hs
    simp only [createEntity, Store.empty, List.nil_append, List.mem_singleton] at hs
    rw [hs]
    simp [createEntity, Store.empty]
  · intro s hs _
    simp only [createEntity, Store.empty, List.nil_append, List.mem_singleton] at hs
    rw [hs]

theorem chainInv_update {st : Store} {id : String} (u : UpdateSpec)
    (h : ChainInv st id) :
    ChainInv (updateEntity st ⟨id, u.properties, u.actor, u.now, u.auditId, u.changes⟩).1 id ∧
    (updateEntity st ⟨id, u.properties, u.actor, u.now, u.auditId, u.changes⟩).1.states.length
      = st.states.length + 1 := by
  obtain ⟨e, sl, hent, heid, henid, hsid, hver, hpw, hnid, hlast, hvto, huniq, hcur, hprev⟩ := h
  obtain ⟨hmatch, hebn, hsbn⟩ := currentMatches_of_chainInv hent heid hpw hlast hcur
  obtain ⟨m, hm⟩ : ∃ m, st.states.length = m + 1 := by
    cases hst : st.states with
    | nil => rw [hst] at hlast; simp at hlast
    | cons _ t => exact ⟨t.length, by simp [hst]⟩
  have hslver : sl.version = st.states.length := by
    have h1 : (st.states.map (fun s => s.version)).getLast? = some sl.version := by
      rw [List.getLast?_map, hlast]
      rfl
    rw [hver, hm, range'_one_getLast?] at h1
    have h2 := Option.some.inj h1
    omega
  rw [updateEntity]
  simp only [hmatch, List.foldl_cons, List.foldl_nil]
  rw [updateEntityRow]
  simp only [hebn, hsbn]
  constructor
  · refine ⟨e, ⟨st.nextNid, id, u.now, none, u.now, sl.version + 1, u.actor, u.properties⟩,
      hent, heid, ?_, ?_, ?_, ?_, ?_, ?_, rfl, ?_, ?_, ?_⟩
    · simp only []
      omega
    · intro s hs
      simp only [] at hs
      rcases List.mem_append.mp hs with h0 | h0
      · obtain ⟨t, ht, hts⟩ := List.mem_map.mp h0
        have : s.entityId = t.entityId := by
          rw [← hts]
          by_cases hc : t.nid = sl.nid <;> simp [hc]
        rw [this]
        exact hsid t ht
      · rw [List.mem_singleton.mp h0]
    · simp only [List.map_append, map_close_version, List.length_append,
        List.length_map, List.length_singleton]
      rw [hver, hslver]
      exact (range'_one_concat st.states.length).symm
    · simp only []
      rw [List.pairwise_append]
      refine ⟨?_, List.pairwise_singleton _ _, ?_⟩
      · rw [List.pairwise_map]
        refine hpw.imp ?_
        intro s t hst
        by_cases hc1 : s.nid = sl.nid <;> by_cases hc2 : t.nid = sl.nid <;>
          simp [hc1, hc2] <;> omega
      · intro x hx y hy
        obtain ⟨t, ht, hts⟩ := List.mem_map.mp hx
        rw [List.mem_singleton.mp hy]
        have hxn : x.nid = t.nid := by
          rw [← hts]
          by_cases hc : t.nid = sl.nid <;> simp [hc]
        simp only [hxn]
        exact hnid t ht
    · intro s hs
      simp only [] at hs ⊢
      rcases List.mem_append.mp hs with h0 | h0
      · obtain ⟨t, ht, hts⟩ := List.mem_map.mp h0
        have hxn : s.nid = t.nid := by
          rw [← hts]
          by_cases hc : t.nid = sl.nid <;> simp [hc]
        rw [hxn]
        have := hnid t ht
        omega
      · rw [List.mem_singleton.mp h0]
        simp only []
        omega
    · simp only []
      exact List.getLast?_concat _
    · intro s hs hvt
      simp only [] at hs
      rcases List.mem_append.mp hs with h0 | h0
      · obtain ⟨t, ht, hts⟩ := List.mem_map.mp h0
        by_cases hc : t.nid = sl.nid
        · rw [← hts] at hvt
          simp [hc] at hvt
        · rw [← hts] at hvt
          simp only [hc, if_neg, ite_false] at hvt
          have := huniq t ht hvt
          exact absurd this hc
      · rw [List.mem_singleton.mp h0]
    · simp only [hcur]
      rw [List.erase_cons_head]
      rfl
    · simp only [List.map_append, map_close_nid]
      rw [hprev]
      have hnl : (st.states.map (fun s => s.nid)).getLast? = some sl.nid := by
        rw [List.getLast?_map, hlast]
        rfl
      exact (tail_zip_concat st.nextNid hnl).symm
  · simp only [List.length_append, List.length_map, List.length_singleton]

theorem chainInv_applyUpdates (id : String) : ∀ (ups : List UpdateSpec) (st : Store),
    ChainInv st id →
    ChainInv (applyUpdates st id ups) id ∧
    (applyUpdates st id ups).states.length = st.states.length + ups.length := by
  intro ups
  induction ups with
  | nil => intro st h; exact ⟨h, by simp [applyUpdates]⟩
  | cons u rest ih =>
    intro st h
    have hstep := chainInv_update u h
    have hrest := ih _ hstep.1
    rw [applyUpdates, List.foldl_cons]
    refine ⟨hrest.1, ?_⟩
    rw [applyUpdates] at hrest
    rw [hrest.2, hstep.2]
    simp
    omega

/-- C1: starting from the entity's creation, any sequence of
createEntity/updateEntity mutations leaves the entity's states with
contiguous versions `1..n` in creation order (create writes version 1, each
update writes old+1), the CURRENT link pointing at the version-`n` state
(the only state with `validTo = null`: every superseded head was closed),
and each new state linked -PREVIOUS-> to the state it superseded. -/
theorem C1_version_chain (a : CreateEntityArgs) (ups : List UpdateSpec) :
    let st := applyUpdates (createEntity Store.empty a) a.id ups
    st.states.length = ups.length + 1 ∧
    st.states.map (fun s => s.version) = List.range' 1 (ups.length + 1) ∧
    (∀ s ∈ st.states, s.entityId = a.id) ∧
    (∃ e sl, st.entities = [e] ∧ e.id = a.id ∧
      st.states.getLast? = some sl ∧ sl.version = ups.length + 1 ∧
      sl.validTo = none ∧
      st.currentRel = [(e.nid, sl.nid)] ∧
      (∀ s ∈ st.states, s.validTo = none → s.nid = sl.nid)) ∧
    st.previousRel =
      ((st.states.map (fun s => s.nid)).tail).zip (st.states.map (fun s => s.nid)) := by
  intro st
  obtain ⟨hinv0, hlen0⟩ := chainInv_create a
  obtain ⟨hinv, hlen⟩ := chainInv_applyUpdates a.id ups _ hinv0
  obtain ⟨e, sl, hent, heid, _, hsid, hver, _, _, hlast, hvto, huniq, hcur, hprev⟩ := hinv
  have hlen' : st.states.length = ups.length + 1 := by
    rw [hlen, hlen0]
    omega
  have hslver : sl.version = ups.length + 1 := by
    have h1 : (st.states.map (fun s => s.version)).getLast? = some sl.version := by
      rw [List.getLast?_map, hlast]
      rfl
    rw [hver, hlen', range'_one_getLast?] at h1
    exact (Option.some.inj h1).symm
  exact ⟨hlen', by rw [hver, hlen'], hsid,
    ⟨e, sl, hent, heid, hlast, hslver, hvto, hcur, huniq⟩, hprev⟩

/-- C7 as stated fails: running the soft delete a second time on an
already-deleted entity changes the store — the head state's `validTo` and
the entity's `deletedAt` move from `"t1"` to `"t2"` and a third audit entry
is appended. -/
theorem C7_counterexample :
    (remove (remove (createEntity Store.empty ⟨"x", "Service", [], "alice", "t0", "a0"⟩)
        "x" "bob" "t1" "a1") "x" "carol" "t2" "a2") ≠
      (remove (createEntity Store.empty ⟨"x", "Service", [], "alice", "t0", "a0"⟩)
        "x" "bob" "t1" "a1") ∧
    (remove (createEntity Store.empty ⟨"x", "Service", [], "alice", "t0", "a0"⟩)
        "x" "bob" "t1" "a1").audits.length = 2 ∧
    (remove (remove (createEntity Store.empty ⟨"x", "Service", [], "alice", "t0", "a0"⟩)
        "x" "bob" "t1" "a1") "x" "carol" "t2" "a2").audits.length = 3 ∧
    ((remove (createEntity Store.empty ⟨"x", "Service", [], "alice", "t0", "a0"⟩)
        "x" "bob" "t1" "a1").entities.map (fun e => e.deletedAt)) = [some "t1"] ∧
    ((remove (remove (createEntity Store.empty ⟨"x", "Service", [], "alice", "t0", "a0"⟩)
        "x" "bob" "t1" "a1") "x" "carol" "t2" "a2").entities.map
      (fun e => e.deletedAt)) = [some "t2"] ∧
    ((remove (remove (createEntity Store.empty ⟨"x", "Service", [], "alice", "t0", "a0"⟩)
        "x" "bob" "t1" "a1") "x" "carol" "t2" "a2").states.map
      (fun s => s.validTo)) = [some "t2"] := by
  decide

/-- C7 (amended): `remove` on an already soft-deleted entity is not a
no-op.  Since `cypherDeleteEntity` keeps the CURRENT link and its MATCH has
no `_deleted_at` filter, a second delete re-fires: it overwrites the head
state's `validTo` and the entity's `deletedAt`/`deletedBy` with the new
delete time and actor and appends one more delete audit entry.  It is
idempotent only in the weaker sense that no state or entity is created or
destroyed and the entity stays deleted. -/
theorem C7_remove_rewrites_already_deleted (st : Store) (id : String)
    (e : EntityNode) (sn : StateNode) (actor now auditId : String)
    (hm : currentMatches st id = [(e.nid, sn.nid)])
    (hebn : entityByNid st e.nid = some e)
    (hsbn : stateByNid st sn.nid = some sn)
    (hdel : e.deletedAt.isSome) :
    (remove st id actor now auditId).states.length = st.states.length ∧
    (remove st id actor now auditId).entities.length = st.entities.length ∧
    (remove st id actor now auditId).audits =
      st.audits ++ [⟨st.nextNid, auditId, id, e.label, "delete", actor, now, none⟩] ∧
    (remove st id actor now auditId).entities = st.entities.map (fun t =>
      if t.nid = e.nid then
        { t with deletedAt := some now, deletedBy := some actor } else t) ∧
    (remove st id actor now auditId).states = st.states.map (fun t =>
      if t.nid = sn.nid then { t with validTo := some now } else t) ∧
    (remove st id actor now auditId).currentRel = st.currentRel ∧
    (remove st id actor now auditId).previousRel = st.previousRel := by
  rw [remove, deleteEntity]
  simp only [hm, List.foldl_cons, List.foldl_nil]
  rw [deleteEntityRow]
  simp [hebn, hsbn]

/-- Witness for the amended C7 at the concrete two-delete trace. -/
theorem C7_witness :
    (remove (remove (createEntity Store.empty ⟨"x", "Service", [], "alice", "t0", "a0"⟩)
        "x" "bob" "t1" "a1") "x" "carol" "t2" "a2").audits =
      (remove (createEntity Store.empty ⟨"x", "Service", [], "alice", "t0", "a0"⟩)
        "x" "bob" "t1" "a1").audits ++
      [⟨4, "a2", "x", "Service", "delete", "carol", "t2", none⟩] := by
  have h := C7_remove_rewrites_already_deleted
    (remove (createEntity Store.empty ⟨"x", "Service", [], "alice", "t0", "a0"⟩)
      "x" "bob" "t1" "a1") "x"
    ⟨0, "x", "Service", "t0", some "t1", some "bob"⟩
    ⟨1, "x", "t0", some "t1", "t0", 1, "alice", []⟩
    "carol" "t2" "a2" (by decide) (by decide) (by decide) (by decide)
  exact h.2.2.1

/-- C10: for a soft-deleted entity, `getCurrent` reads null (its query
filters on `_deleted_at IS NULL`), so a subsequent `upsert` with the same
id takes the create path: it reports version 1 / created, and the
unconditional CREATE of `cypherCreateEntity` adds a second Entity node with
the same `_id` instead of resuming the existing version chain. -/
theorem C10_upsert_after_soft_delete (st : Store) (registry : SchemaRegistry)
    (label id : String) (properties validated : PropMap)
    (actor now auditId : String)
    (hval : registry.validate label properties = .ok validated)
    (hdel : ∀ e ∈ st.entities, e.id = id → e.deletedAt.isSome)
    (hex : ∃ e ∈ st.entities, e.id = id) :
    getCurrent st id = none ∧
    upsert st registry label id properties actor now auditId =
      .ok (createEntity st ⟨id, label, validated, actor, now, auditId⟩,
        ⟨id, 1, true⟩) ∧
    (createEntity st ⟨id, label, validated, actor, now, auditId⟩).entities.countP
        (fun e => e.id = id) = st.entities.countP (fun e => e.id = id) + 1 ∧
    2 ≤ (createEntity st ⟨id, label, validated, actor, now, auditId⟩).entities.countP
        (fun e => e.id = id) := by
  have hnone : getCurrent st id = none := by
    rw [getCurrent]
    have hmt : getCurrentMatches st id = [] := by
      rw [getCurrentMatches, List.filter_eq_nil_iff]
      intro p _
      cases hbn : entityByNid st p.1 with
      | none => simp [hbn]
      | some e =>
        have hmem : e ∈ st.entities := List.mem_of_find?_eq_some hbn
        by_cases hid : e.id = id
        · have hds := hdel e hmem hid
          obtain ⟨v, hv⟩ := Option.isSome_iff_exists.mp hds
          simp [hbn, hid, hv]
        · simp [hbn, hid]
    rw [hmt]
    rfl
  have hcount : (createEntity st ⟨id, label, validated, actor, now, auditId⟩).entities.countP
      (fun e => e.id = id) = st.entities.countP (fun e => e.id = id) + 1 := by
    rw [createEntity]
    simp [List.countP_append, List.countP_cons]
  have hpos : 0 < st.entities.countP (fun e => e.id = id) := by
    rw [List.countP_pos_iff]
    obtain ⟨e, hm, hid⟩ := hex
    exact ⟨e, hm, by simp [hid]⟩
  refine ⟨hnone, ?_, hcount, by omega⟩
  rw [upsert, hval, hnone]

/-- Witness for C10: create, soft-delete, then upsert the same id; the
store ends with two Entity nodes carrying `_id = "x"`. -/
theorem C10_witness :
    2 ≤ (createEntity
        (remove (createEntity Store.empty ⟨"x", "Service", [], "alice", "t0", "a0"⟩)
          "x" "bob" "t1" "a1")
        ⟨"x", "Service", [], "alice", "t2", "a2"⟩).entities.countP
      (fun e => e.id = "x") := by
  have h := C10_upsert_after_soft_delete
    (remove (createEntity Store.empty ⟨"x", "Service", [], "alice", "t0", "a0"⟩)
      "x" "bob" "t1" "a1")
    ⟨["Service"], fun _ p => .ok p⟩ "Service" "x" [] [] "alice" "t2" "a2"
    rfl (by decide) (by decide)
  exact h.2.2.2

theorem sanitizeIdentifier_ok {value : String} (h : isSafeIdentifier value = true) :
    sanitizeIdentifier value = .ok value := by
  rw [sanitizeIdentifier, if_pos h]

theorem sanitizeIdentifier_error {value : String} (h : ¬ isSafeIdentifier value = true) :
    sanitizeIdentifier value = .error ("Invalid Cypher identifier \x22" ++ value ++
      "\x22. Must match /^[A-Za-z_][A-Za-z0-9_]*$/.") := by
  rw [sanitizeIdentifier, if_neg h]

theorem searchClauses_error : ∀ (fs : List SearchFilter) (i : Nat) (f : SearchFilter),
    f ∈ fs → ¬ isSafeIdentifier f.property = true →
    ∃ msg, searchClauses i fs = .error msg := by
  intro fs
  induction fs with
  | nil => intro i f hf; simp at hf
  | cons g rest ih =>
    intro i f hf hbad
    rcases List.mem_cons.mp hf with h | h
    · subst h
      refine ⟨"Invalid Cypher identifier \x22" ++ f.property ++
        "\x22. Must match /^[A-Za-z_][A-Za-z0-9_]*$/.", ?_⟩
      simp only [searchClauses, sanitizeIdentifier_error hbad]
    · by_cases hg : isSafeIdentifier g.property = true
      · obtain ⟨msg, hmsg⟩ := ih (i + 1) f h hbad
        exact ⟨msg, by simp only [searchClauses, sanitizeIdentifier_ok hg, hmsg]⟩
      · refine ⟨"Invalid Cypher identifier \x22" ++ g.property ++
          "\x22. Must match /^[A-Za-z_][A-Za-z0-9_]*$/.", ?_⟩
        simp only [searchClauses, sanitizeIdentifier_error hg]

theorem searchClauses_query_shape : ∀ (fs fs' : List SearchFilter) (i : Nat),
    fs.map (fun f => (f.property, f.operator)) =
      fs'.map (fun f => (f.property, f.operator)) →
    Except.map (fun r => r.1) (searchClauses i fs) =
      Except.map (fun r => r.1) (searchClauses i fs') := by
  intro fs
  induction fs with
  | nil =>
    intro fs' i h
    cases fs' with
    | nil => rfl
    | cons _ _ => simp at h
  | cons g rest ih =>
    intro fs' i h
    cases fs' with
    | nil => simp at h
    | cons g' rest' =>
      simp only [List.map_cons, List.cons.injEq, Prod.mk.injEq] at h
      obtain ⟨⟨hprop, hop⟩, htail⟩ := h
      have hih := ih rest' (i + 1) htail
      rw [searchClauses, searchClauses, hprop]
      cases hs : sanitizeIdentifier g'.property with
      | error e => rfl
      | ok prop =>
        cases h1 : searchClauses (i + 1) rest with
        | error e1 =>
          cases h2 : searchClauses (i + 1) rest' with
          | error e2 =>
            rw [h1, h2] at hih
            simp only [Except.map] at hih
            cases hih
            rfl
          | ok r2 =>
            rw [h1, h2] at hih
            simp [Except.map] at hih
        | ok r1 =>
          cases h2 : searchClauses (i + 1) rest' with
          | error e2 =>
            rw [h1, h2] at hih
            simp [Except.map] at hih
          | ok r2 =>
            rw [h1, h2] at hih
            obtain ⟨cs1, ps1⟩ := r1
            obtain ⟨cs2, ps2⟩ := r2
            simp only [Except.map, Except.ok.injEq] at hih
            simp only [Except.map, Except.ok.injEq]
            rw [hop, hih]

theorem searchClauses_params : ∀ (fs : List SearchFilter) (i : Nat)
    (cs : List String) (ps : List (String × JValue)),
    searchClauses i fs = .ok (cs, ps) →
    ∀ (j : Nat) (f : SearchFilter), fs[j]? = some f →
    ("filter_" ++ toString (i + j), f.value) ∈ ps := by
  intro fs
  induction fs with
  | nil => intro i cs ps _ j f hf; simp at hf
  | cons g rest ih =>
    intro i cs ps h j f hf
    rw [searchClauses] at h
    cases hs : sanitizeIdentifier g.property with
    | error e =>
      rw [hs] at h
      exact absurd h (by simp)
    | ok prop =>
      rw [hs] at h
      cases h1 : searchClauses (i + 1) rest with
      | error e1 =>
        rw [h1] at h
        exact absurd h (by simp)
      | ok r1 =>
        obtain ⟨cs1, ps1⟩ := r1
        rw [h1] at h
        have hps : ("filter_" ++ toString i, g.value) :: ps1 = ps :=
          (Prod.mk.inj (Except.ok.inj h)).2
        cases j with
        | zero =>
          simp only [List.getElem?_cons_zero] at hf
          cases hf
          rw [← hps]
          simp
        | succ m =>
          simp only [List.getElem?_cons_succ] at hf
          have hmem := ih (i + 1) cs1 ps1 h1 m f hf
          rw [← hps]
          have he : i + 1 + m = i + (m + 1) := by omega
          rw [he] at hmem
          exact List.mem_cons_of_mem _ hmem

/-- C8: every label or relationship type interpolated into query text
first passes the SAFE_IDENTIFIER check — an input failing the check makes
the builder throw before any query is produced (labels in createEntity /
queryByLabel / search, relationship types in relate / unrelate, and
search's property and orderBy identifiers) — and property values reach the
store only as bound parameters: the query text is a function of the
sanitized identifiers alone, while the values appear in the parameter
map. -/
theorem C8_identifier_discipline :
    (∀ id label properties actor now auditId,
      ¬ isSafeIdentifier label = true →
      ∃ msg, cypherCreateEntityQ id label properties actor now auditId = .error msg) ∧
    (∀ fromId toId type properties now actor auditId,
      ¬ isSafeIdentifier type = true →
      ∃ msg, cypherRelateQ fromId toId type properties now actor auditId = .error msg) ∧
    (∀ fromId toId type now actor auditId,
      ¬ isSafeIdentifier type = true →
      ∃ msg, cypherUnrelateQ fromId toId type now actor auditId = .error msg) ∧
    (∀ label, ¬ isSafeIdentifier label = true →
      ∃ msg, cypherQueryByLabelQ label = .error msg) ∧
    (∀ label filters limit ob od, ¬ isSafeIdentifier label = true →
      ∃ msg, cypherSearchQ label filters limit ob od = .error msg) ∧
    (∀ label filters limit ob od f, f ∈ filters →
      ¬ isSafeIdentifier f.property = true →
      ∃ msg, cypherSearchQ label filters limit ob od = .error msg) ∧
    (∀ label filters limit p od, ¬ isSafeIdentifier p = true →
      ∃ msg, cypherSearchQ label filters limit (some p) od = .error msg) ∧
    (∀ id label properties properties' actor now auditId q q',
      cypherCreateEntityQ id label properties actor now auditId = .ok q →
      cypherCreateEntityQ id label properties' actor now auditId = .ok q' →
      q.query = q'.query ∧ ("properties", JValue.obj properties) ∈ q.params) ∧
    (∀ label filters filters' limit ob od q q',
      filters.map (fun f => (f.property, f.operator)) =
        filters'.map (fun f => (f.property, f.operator)) →
      cypherSearchQ label filters limit ob od = .ok q →
      cypherSearchQ label filters' limit ob od = .ok q' →
      q.query = q'.query ∧
      ∀ (j : Nat) (f : SearchFilter), filters[j]? = some f →
        ("filter_" ++ toString j, f.value) ∈ q.params) := by
  refine ⟨?_, ?_, ?_, ?_, ?_, ?_, ?_, ?_, ?_⟩
  · intro id label properties actor now auditId hbad
    exact ⟨_, by rw [cypherCreateEntityQ, sanitizeIdentifier_error hbad]⟩
  · intro fromId toId type properties now actor auditId hbad
    exact ⟨_, by rw [cypherRelateQ, sanitizeIdentifier_error hbad]⟩
  · intro fromId toId type now actor auditId hbad
    exact ⟨_, by rw [cypherUnrelateQ, sanitizeIdentifier_error hbad]⟩
  · intro label hbad
    exact ⟨_, by rw [cypherQueryByLabelQ, sanitizeIdentifier_error hbad]⟩
  · intro label filters limit ob od hbad
    exact ⟨_, by rw [cypherSearchQ.eq_def, sanitizeIdentifier_error hbad]⟩
  · intro label filters limit ob od f hf hbad
    by_cases hl : isSafeIdentifier label = true
    · obtain ⟨msg, hmsg⟩ := searchClauses_error filters 0 f hf hbad
      exact ⟨msg, by rw [cypherSearchQ.eq_def, sanitizeIdentifier_ok hl, hmsg]⟩
    · exact ⟨_, by rw [cypherSearchQ.eq_def, sanitizeIdentifier_error hl]⟩
  · intro label filters limit p od hbad
    by_cases hl : isSafeIdentifier label = true
    · cases hsc : searchClauses 0 filters with
      | error e => exact ⟨e, by rw [cypherSearchQ.eq_def, sanitizeIdentifier_ok hl, hsc]⟩
      | ok r =>
        obtain ⟨cs, ps⟩ := r
        refine ⟨"Invalid Cypher identifier \x22" ++ p ++
          "\x22. Must match /^[A-Za-z_][A-Za-z0-9_]*$/.", ?_⟩
        rw [cypherSearchQ.eq_def, sanitizeIdentifier_ok hl, hsc]
        simp only [sanitizeIdentifier_error hbad, Except.map]
    · exact ⟨_, by rw [cypherSearchQ.eq_def, sanitizeIdentifier_error hl]⟩
  · intro id label properties properties' actor now auditId q q' h1 h2
    rw [cypherCreateEntityQ] at h1 h2
    cases hs : sanitizeIdentifier label with
    | error e =>
      rw [hs] at h1
      exact absurd h1 (by simp)
    | ok l =>
      rw [hs] at h1 h2
      have e1 := Except.ok.inj h1
      have e2 := Except.ok.inj h2
      constructor
      · rw [← e1, ← e2]
      · rw [← e1]
        simp
  · intro label filters filters' limit ob od q q' hshape h1 h2
    rw [cypherSearchQ.eq_def] at h1 h2
    cases hs : sanitizeIdentifier label with
    | error e =>
      rw [hs] at h1
      exact absurd h1 (by simp)
    | ok l =>
      rw [hs] at h1 h2
      have hqs := searchClauses_query_shape filters filters' 0 hshape
      cases hc1 : searchClauses 0 filters with
      | error e1 =>
        rw [hc1] at h1
        exact absurd h1 (by simp)
      | ok r1 =>
        cases hc2 : searchClauses 0 filters' with
        | error e2 =>
          rw [hc1, hc2] at hqs
          simp [Except.map] at hqs
        | ok r2 =>
          obtain ⟨cs1, ps1⟩ := r1
          obtain ⟨cs2, ps2⟩ := r2
          rw [hc1, hc2] at hqs
          simp only [Except.map, Except.ok.injEq] at hqs
          rw [hc1] at h1
          rw [hc2] at h2
          cases hord : (match ob with
            | some o => Except.map some (sanitizeIdentifier o)
            | none => .ok none) with
          | error e3 =>
            rw [hord] at h1
            exact absurd h1 (by simp)
          | ok op =>
            rw [hord] at h1 h2
            simp only [cypherSearchAssemble] at h1 h2
            have e1 := Except.ok.inj h1
            have e2 := Except.ok.inj h2
            constructor
            · rw [← e1, ← e2]
              simp only [hqs]
            · intro j f hf
              have hmem := searchClauses_params filters 0 cs1 ps1 hc1 j f hf
              rw [← e1]
              simp only [Nat.zero_add] at hmem
              exact List.mem_cons_of_mem _ hmem

/-- Witness for C8: a label with a space and a filter property with a space
both make the builders throw. -/
theorem C8_witness :
    (∃ msg, cypherCreateEntityQ "e1" "bad label" [] "a" "t" "u" = .error msg) ∧
    (∃ msg, cypherSearchQ "Service" [⟨"bad prop", "eq", JValue.num 1⟩] 10
      none none = .error msg) := by
  refine ⟨C8_identifier_discipline.1 "e1" "bad label" [] "a" "t" "u" (by decide), ?_⟩
  exact C8_identifier_discipline.2.2.2.2.2.1 "Service"
    [⟨"bad prop", "eq", JValue.num 1⟩] 10 none none
    ⟨"bad prop", "eq", JValue.num 1⟩ (by decide) (by decide)

theorem jsMapGet_jsMapSet {α : Type} : ∀ (m : List (String × α)) (k : String) (v : α),
    jsMapGet (jsMapSet m k v) k = some v := by
  intro m
  induction m with
  | nil =>
    intro k v
    rw [jsMapSet]
    simp [jsMapGet]
  | cons q rest ih =>
    intro k v
    by_cases hk : q.1 = k
    · rw [jsMapSet, if_pos (by simp [List.any_cons, hk])]
      rw [jsMapGet, List.map_cons, if_pos hk, List.find?_cons_of_pos _ (by simp)]
      rfl
    · by_cases hrest : rest.any (fun p => p.1 = k) = true
      · rw [jsMapSet, if_pos (by simp [List.any_cons, hrest])]
        rw [jsMapGet, List.map_cons, if_neg hk,
          List.find?_cons_of_neg _ (by simpa using hk)]
        have := ih k v
        rw [jsMapSet, if_pos hrest] at this
        exact this
      · have hrestf : (rest.any fun p => decide (p.1 = k)) = false :=
          Bool.not_eq_true _ ▸ eq_false_of_ne_true hrest
        have hall : (q :: rest).any (fun p => p.1 = k) = false := by
          simp only [List.any_cons, Bool.or_eq_false_iff]
          exact ⟨by simpa using hk, hrestf⟩
        rw [jsMapSet, hall]
        simp only [Bool.false_eq_true, if_false, List.cons_append]
        rw [jsMapGet, List.find?_cons_of_neg _ (by simpa using hk)]
        have := ih k v
        rw [jsMapSet, hrestf] at this
        simp only [Bool.false_eq_true, if_false] at this
        exact this

/-- C9 as stated fails: the persisted path is
`<root>/.btmg/fingerprints.json`, not `<root>/.scanstate/fingerprints`;
after a save nothing exists at the spec's path. -/
theorem C9_counterexample :
    fingerprintStorePath "root" = "root/.btmg/fingerprints.json" ∧
    fingerprintStorePath "root" ≠ "root/.scanstate/fingerprints" ∧
    fsRead (saveFingerprints [] "root" []) "root/.scanstate/fingerprints" = none ∧
    fsRead (saveFingerprints [] "root" []) "root/.btmg/fingerprints.json" =
      some (serializeStore []) := by
  decide

/-- C9 (amended): the fingerprint store is persisted at
`<root>/.btmg/fingerprints.json` as a JSON map keyed by relative path, and
each save rewrites the store whole: after a save, the file's content is the
serialization of the given store and does not depend on the previous file
system state. -/
theorem C9_saveFingerprints_rewrites_whole (fs fs' : FileSystem)
    (projectRoot : String) (store : FingerprintStore) :
    fingerprintStorePath projectRoot =
      joinPath (joinPath projectRoot ".btmg") "fingerprints.json" ∧
    fsRead (saveFingerprints fs projectRoot store) (fingerprintStorePath projectRoot) =
      some (serializeStore store) ∧
    fsRead (saveFingerprints fs projectRoot store) (fingerprintStorePath projectRoot) =
      fsRead (saveFingerprints fs' projectRoot store) (fingerprintStorePath projectRoot) := by
  refine ⟨rfl, ?_, ?_⟩
  · exact jsMapGet_jsMapSet fs (fingerprintStorePath projectRoot) (serializeStore store)
  · simp only [fsRead, saveFingerprints, fsWrite]
    rw [jsMapGet_jsMapSet fs _ (serializeStore store),
      jsMapGet_jsMapSet fs' _ (serializeStore store)]

theorem resolveConflicts_fail : ∀ (changes : List Change),
    (∃ c ∈ changes, c.type = ChangeType.conflict) →
    ∃ c', c' ∈ changes ∧ c'.type = ChangeType.conflict ∧
      resolveConflicts changes ConflictStrategy.fail =
        .error (conflictFailMessage c'.entityId c'.label) := by
  intro changes
  induction changes with
  | nil => rintro ⟨c, hc, _⟩; simp at hc
  | cons c rest ih =>
    rintro ⟨c0, hc0, ht0⟩
    by_cases hc : c.type = ChangeType.conflict
    · refine ⟨c, List.mem_cons_self c rest, hc, ?_⟩
      have hrc : resolveConflict c ConflictStrategy.fail =
          .error (conflictFailMessage c.entityId c.label) := by
        rw [resolveConflict, if_neg (by simp [hc])]
      rw [resolveConflicts, if_pos hc, hrc]
    · have hc0r : c0 ∈ rest := by
        rcases List.mem_cons.mp hc0 with h | h
        · exact absurd (h ▸ ht0) hc
        · exact h
      obtain ⟨c', hm, ht, he⟩ := ih ⟨c0, hc0r, ht0⟩
      refine ⟨c', List.mem_cons_of_mem _ hm, ht, ?_⟩
      rw [resolveConflicts, if_neg hc, he]

/-- C4: under strategy `fail`, a changeset with at least one conflict makes
`sync` throw the ConflictError of the first conflict — the message names
the conflicting entity — before anything is applied: the store is exactly
the input store and no doc is handed to the render step. -/
theorem C4_fail_aborts_everything (st : Store) (registry : SchemaRegistry)
    (gen : SyncGen) (docs : List ParsedDoc) (actor : String)
    (labels : Option (List String))
    (hconf : ∃ c ∈ computeChanges (loadGraph st (labels.getD registry.nodeLabels)) docs,
      c.type = ChangeType.conflict) :
    ∃ c', c' ∈ computeChanges (loadGraph st (labels.getD registry.nodeLabels)) docs ∧
      c'.type = ChangeType.conflict ∧
      sync st registry gen docs ⟨ConflictStrategy.fail, actor, labels⟩ =
        { outcome := .error (conflictFailMessage c'.entityId c'.label),
          store := st, rendered := [] } ∧
      conflictFailMessage c'.entityId c'.label =
        "Sync conflict for entity " ++ c'.entityId ++ " (" ++ c'.label ++
          "). Strategy is \x22fail\x22. Manual resolution required." := by
  obtain ⟨c', hm, ht, he⟩ := resolveConflicts_fail _ hconf
  refine ⟨c', hm, ht, ?_, rfl⟩
  rw [sync]
  rw [he]

/-- Witness for C4 at a concrete store and doc tree with one conflict. -/
theorem C4_witness :
    ∃ c', c' ∈ computeChanges (loadGraph
        (createEntity Store.empty
          ⟨"e1", "Person", [("name", JValue.str "Alice")], "test", "t0", "a0"⟩)
        ((some ["Person"]).getD (SchemaRegistry.mk ["Person"]
          (fun _ p => .ok p)).nodeLabels))
      [{ filePath := "/docs/Person/e1.md", relativePath := "Person/e1.md",
         fmId := "e1", fmLabel := "Person", fmSyncHash := some (JValue.str "stale"),
         frontmatter := [("_id", JValue.str "e1"), ("name", JValue.str "Bob")],
         content := "" }] ∧
      c'.type = ChangeType.conflict ∧
      sync (createEntity Store.empty
          ⟨"e1", "Person", [("name", JValue.str "Alice")], "test", "t0", "a0"⟩)
        (SchemaRegistry.mk ["Person"] (fun _ p => .ok p))
        ⟨fun _ => "t9", fun _ => "u9"⟩
        [{ filePath := "/docs/Person/e1.md", relativePath := "Person/e1.md",
           fmId := "e1", fmLabel := "Person", fmSyncHash := some (JValue.str "stale"),
           frontmatter := [("_id", JValue.str "e1"), ("name", JValue.str "Bob")],
           content := "" }]
        ⟨ConflictStrategy.fail, "btmg-sync", some ["Person"]⟩ =
        { outcome := .error (conflictFailMessage c'.entityId c'.label),
          store := createEntity Store.empty
            ⟨"e1", "Person", [("name", JValue.str "Alice")], "test", "t0", "a0"⟩,
          rendered := [] } ∧
      conflictFailMessage c'.entityId c'.label =
        "Sync conflict for entity " ++ c'.entityId ++ " (" ++ c'.label ++
          "). Strategy is \x22fail\x22. Manual resolution required." :=
  C4_fail_aborts_everything
    (createEntity Store.empty
      ⟨"e1", "Person", [("name", JValue.str "Alice")], "test", "t0", "a0"⟩)
    (SchemaRegistry.mk ["Person"] (fun _ p => .ok p))
    ⟨fun _ => "t9", fun _ => "u9"⟩
    [{ filePath := "/docs/Person/e1.md", relativePath := "Person/e1.md",
       fmId := "e1", fmLabel := "Person", fmSyncHash := some (JValue.str "stale"),
       frontmatter := [("_id", JValue.str "e1"), ("name", JValue.str "Bob")],
       content := "" }]
    "btmg-sync" (some ["Person"]) (by decide)

theorem updateEntity_snd_len_mono (a : UpdateEntityArgs) :
    ∀ (rows : List (Nat × Nat)) (acc : Store × List StateNode),
    acc.2.length ≤ (rows.foldl (fun acc row =>
      match updateEntityRow acc.1 a row with
      | (st', some s) => (st', acc.2 ++ [s])
      | (st', none) => (st', acc.2)) acc).2.length := by
  intro rows
  induction rows with
  | nil => intro acc; simp
  | cons r rest ih =>
    intro acc
    rw [List.foldl_cons]
    refine le_trans ?_ (ih _)
    rcases h : updateEntityRow acc.1 a r with ⟨st', so⟩
    cases so with
    | none => simp [h]
    | some s => simp [h]

theorem updateEntity_foldl_ne_nil (a : UpdateEntityArgs)
    (rows : List (Nat × Nat)) (acc : Store × List StateNode) (hacc : acc.2 ≠ []) :
    (rows.foldl (fun acc row =>
      match updateEntityRow acc.1 a row with
      | (st', some s) => (st', acc.2 ++ [s])
      | (st', none) => (st', acc.2)) acc).2 ≠ [] := by
  intro hc
  have hmono := updateEntity_snd_len_mono a rows acc
  rw [hc] at hmono
  simp only [List.length_nil, Nat.le_zero] at hmono
  exact hacc (List.eq_nil_of_length_eq_zero hmono)

theorem updateEntity_nonempty (st : Store) (a : UpdateEntityArgs)
    (h : currentMatches st a.id ≠ []) :
    (updateEntity st a).2 ≠ [] := by
  rw [updateEntity]
  cases hm : currentMatches st a.id with
  | nil => exact absurd hm h
  | cons r rest =>
    simp only [List.foldl_cons]
    have hr : r ∈ currentMatches st a.id := hm ▸ List.mem_cons_self r rest
    rw [currentMatches] at hr
    have hpred := List.of_mem_filter hr
    cases hbe : entityByNid st r.1 with
    | none => rw [hbe] at hpred; simp at hpred
    | some e =>
      cases hbs : stateByNid st r.2 with
      | none => rw [hbe, hbs] at hpred; simp at hpred
      | some old =>
        simp only [updateEntityRow, hbe, hbs]
        exact updateEntity_foldl_ne_nil a rest _ (by simp)

theorem getCurrentMatches_subset_currentMatches {st : Store} {id : String}
    {p : Nat × Nat} (h : p ∈ getCurrentMatches st id) : p ∈ currentMatches st id := by
  rw [getCurrentMatches] at h
  rw [currentMatches]
  have hm := List.mem_of_mem_filter h
  have hp := List.of_mem_filter h
  refine List.mem_filter.mpr ⟨hm, ?_⟩
  cases hbe : entityByNid st p.1 with
  | none => rw [hbe] at hp; simp at hp
  | some e =>
    rw [hbe] at hp
    simp only [Bool.and_eq_true, decide_eq_true_eq] at hp
    simp only [Bool.and_eq_true, decide_eq_true_eq]
    exact ⟨hp.1.1, hp.2⟩

theorem upsert_ok (st : Store) (registry : SchemaRegistry) (label id : String)
    (properties : PropMap) (actor now auditId : String)
    (hval : ∃ q, registry.validate label properties = .ok q) :
    ∃ st' r, upsert st registry label id properties actor now auditId =
      .ok (st', r) := by
  obtain ⟨q, hq⟩ := hval
  rw [upsert, hq]
  cases hget : getCurrent st id with
  | none => exact ⟨_, _, rfl⟩
  | some es =>
    dsimp only
    have hne : currentMatches st id ≠ [] := by
      rw [getCurrent] at hget
      cases hh : (getCurrentMatches st id).head? with
      | none => rw [hh] at hget; exact absurd hget (by simp)
      | some row =>
        have hrowmem : row ∈ getCurrentMatches st id :=
          List.mem_of_mem_head? (by rw [hh]; rfl)
        have hcm := getCurrentMatches_subset_currentMatches hrowmem
        intro hc
        rw [hc] at hcm
        simp at hcm
    have hnonempty := updateEntity_nonempty st ⟨id, q, actor, now, auditId, none⟩ hne
    rcases hu : updateEntity st ⟨id, q, actor, now, auditId, none⟩ with ⟨st', lst⟩
    rw [hu] at hnonempty
    cases lst with
    | nil => simp at hnonempty
    | cons s rest => exact ⟨st', _, rfl⟩

theorem resolveConflict_ok (c : Change) (strategy : ConflictStrategy)
    (hc : c.type = ChangeType.conflict) (hs : strategy ≠ ConflictStrategy.fail) :
    ∃ r, resolveConflict c strategy = .ok r ∧
      r.conflict = some ⟨c.entityId, c.label, c.graphHash.getD (.str ""),
        c.docHash.getD (.str ""), strategy⟩ ∧
      (r.target = ResolveTarget.graph ↔ strategy ≠ ConflictStrategy.graphWins) := by
  cases strategy with
  | fail => exact absurd rfl hs
  | graphWins =>
    have h : resolveConflict c ConflictStrategy.graphWins = .ok
        { entityId := c.entityId, label := c.label,
          properties := c.graphProperties.getD [],
          target := .docs,
          conflict := some ⟨c.entityId, c.label, c.graphHash.getD (.str ""),
            c.docHash.getD (.str ""), ConflictStrategy.graphWins⟩ } := by
      rw [resolveConflict, if_neg (by simp [hc])]
    exact ⟨_, h, rfl, by simp⟩
  | docsWins =>
    have h : resolveConflict c ConflictStrategy.docsWins = .ok
        { entityId := c.entityId, label := c.label,
          properties := c.docProperties.getD [],
          target := .graph,
          conflict := some ⟨c.entityId, c.label, c.graphHash.getD (.str ""),
            c.docHash.getD (.str ""), ConflictStrategy.docsWins⟩ } := by
      rw [resolveConflict, if_neg (by simp [hc])]
    exact ⟨_, h, rfl, by simp⟩
  | merge =>
    have h : resolveConflict c ConflictStrategy.merge = .ok
        { entityId := c.entityId, label := c.label,
          properties := jsSpreadMerge (c.graphProperties.getD [])
            (c.docProperties.getD []),
          target := .graph,
          conflict := some ⟨c.entityId, c.label, c.graphHash.getD (.str ""),
            c.docHash.getD (.str ""), ConflictStrategy.merge⟩ } := by
      rw [resolveConflict, if_neg (by simp [hc])]
    exact ⟨_, h, rfl, by simp⟩

theorem resolveConflicts_ok (strategy : ConflictStrategy)
    (hs : strategy ≠ ConflictStrategy.fail) : ∀ changes : List Change,
    ∃ resolved, resolveConflicts changes strategy =
        .ok (resolved,
          changes.filter (fun c => !decide (c.type = ChangeType.conflict))) ∧
      resolved.length =
        (changes.filter (fun c => decide (c.type = ChangeType.conflict))).length ∧
      ∀ r ∈ resolved, r.conflict.isSome = true ∧
        (r.target = ResolveTarget.graph ↔ strategy ≠ ConflictStrategy.graphWins) := by
  intro changes
  induction changes with
  | nil => exact ⟨[], rfl, rfl, by simp⟩
  | cons c rest ih =>
    obtain ⟨rs, hrs, hlen, hall⟩ := ih
    by_cases hc : c.type = ChangeType.conflict
    · obtain ⟨r, hr, hrc, hrt⟩ := resolveConflict_ok c strategy hc hs
      refine ⟨r :: rs, ?_, ?_, ?_⟩
      · rw [resolveConflicts, if_pos hc, hr, hrs]
        simp [List.filter_cons, hc]
      · simp [List.filter_cons, hc, hlen]
      · intro r' hr'
        rcases List.mem_cons.mp hr' with h | h
        · exact h ▸ ⟨by rw [hrc]; rfl, hrt⟩
        · exact hall r' h
    · refine ⟨rs, ?_, ?_, hall⟩
      · rw [resolveConflicts, if_neg hc, hrs]
        simp [List.filter_cons, hc]
      · simp [List.filter_cons, hc, hlen]

theorem syncStep5_result (registry : SchemaRegistry) (actor : String)
    (gen : SyncGen) (hval : ∀ l p, ∃ q, registry.validate l p = .ok q)
    (ss : SyncState) (r : ResolvedChange) (hc : r.conflict.isSome = true) :
    (syncStep5 registry actor gen ss r).result.errors = ss.result.errors ∧
    (syncStep5 registry actor gen ss r).result.conflicts.length =
      ss.result.conflicts.length + 1 ∧
    (syncStep5 registry actor gen ss r).result.updated = ss.result.updated +
      (if r.target = ResolveTarget.graph then 1 else 0) ∧
    (syncStep5 registry actor gen ss r).result.created = ss.result.created ∧
    (syncStep5 registry actor gen ss r).result.deleted = ss.result.deleted := by
  cases hsome : r.conflict with
  | none => rw [hsome] at hc; simp at hc
  | some crec =>
    rw [syncStep5]
    by_cases ht : r.target = ResolveTarget.graph
    · rw [if_pos ht]
      obtain ⟨st', rr, hup⟩ := upsert_ok ss.store registry r.label r.entityId
        r.properties actor (gen.nowAt ss.k) (gen.auditIdAt ss.k) (hval _ _)
      rw [hup]
      simp [hsome, ht]
    · rw [if_neg ht]
      simp [hsome, ht]

theorem syncStep6_result (registry : SchemaRegistry) (actor : String)
    (gen : SyncGen) (hval : ∀ l p, ∃ q, registry.validate l p = .ok q)
    (ss : SyncState) (change : Change) :
    (syncStep6 registry actor gen ss change).result.errors = ss.result.errors ∧
    (syncStep6 registry actor gen ss change).result.conflicts =
      ss.result.conflicts ∧
    (syncStep6 registry actor gen ss change).result.updated = ss.result.updated +
      (if change.type = ChangeType.update ∧ change.docProperties.isSome
       then 1 else 0) ∧
    (syncStep6 registry actor gen ss change).result.created = ss.result.created +
      (if change.type = ChangeType.create ∧ change.docProperties.isSome
       then 1 else 0) ∧
    (syncStep6 registry actor gen ss change).result.deleted = ss.result.deleted +
      (if change.type = ChangeType.delete then 1 else 0) := by
  rw [syncStep6]
  by_cases h1 : change.type = ChangeType.create ∧ change.docProperties.isSome
  · rw [if_pos h1]
    obtain ⟨st', rr, hup⟩ := upsert_ok ss.store registry change.label
      change.entityId (change.docProperties.getD []) actor (gen.nowAt ss.k)
      (gen.auditIdAt ss.k) (hval _ _)
    rw [hup]
    have h2 : ¬ (change.type = ChangeType.update ∧ change.docProperties.isSome) := by
      intro h; rw [h1.1] at h; exact absurd h.1 (by simp)
    have h3 : ¬ change.type = ChangeType.delete := by
      rw [h1.1]; simp
    simp [h1, h2, h3]
  · rw [if_neg h1]
    by_cases h2 : change.type = ChangeType.update ∧ change.docProperties.isSome
    · rw [if_pos h2]
      obtain ⟨st', rr, hup⟩ := upsert_ok ss.store registry change.label
        change.entityId (change.docProperties.getD []) actor (gen.nowAt ss.k)
        (gen.auditIdAt ss.k) (hval _ _)
      rw [hup]
      have h3 : ¬ change.type = ChangeType.delete := by
        rw [h2.1]; simp
      simp [h1, h2, h3]
    · rw [if_neg h2]
      by_cases h3 : change.type = ChangeType.delete
      · rw [if_pos h3]
        simp [h1, h2, h3]
      · rw [if_neg h3]
        simp [h1, h2, h3]

theorem syncStep5_foldl (registry : SchemaRegistry) (actor : String)
    (gen : SyncGen) (hval : ∀ l p, ∃ q, registry.validate l p = .ok q) :
    ∀ (resolved : List ResolvedChange) (ss : SyncState),
    (∀ r ∈ resolved, r.conflict.isSome = true) →
    (resolved.foldl (syncStep5 registry actor gen) ss).result.errors =
      ss.result.errors ∧
    (resolved.foldl (syncStep5 registry actor gen) ss).result.conflicts.length =
      ss.result.conflicts.length + resolved.length ∧
    (resolved.foldl (syncStep5 registry actor gen) ss).result.updated =
      ss.result.updated +
      (resolved.filter (fun r => decide (r.target = ResolveTarget.graph))).length ∧
    (resolved.foldl (syncStep5 registry actor gen) ss).result.created =
      ss.result.created ∧
    (resolved.foldl (syncStep5 registry actor gen) ss).result.deleted =
      ss.result.deleted := by
  intro resolved
  induction resolved with
  | nil => intro ss _; simp
  | cons r rest ih =>
    intro ss hall
    obtain ⟨e1, c1, u1, cr1, d1⟩ := syncStep5_result registry actor gen hval ss r
      (hall r (List.mem_cons_self r rest))
    obtain ⟨e2, c2, u2, cr2, d2⟩ := ih (syncStep5 registry actor gen ss r)
      (fun r' h => hall r' (List.mem_cons_of_mem r h))
    rw [List.foldl_cons]
    refine ⟨e2.trans e1, ?_, ?_, cr2.trans cr1, d2.trans d1⟩
    · rw [c2, c1, List.length_cons]
      omega
    · rw [u2, u1, List.filter_cons]
      by_cases ht : r.target = ResolveTarget.graph
      · simp [ht]
        omega
      · simp [ht]

theorem syncStep6_foldl (registry : SchemaRegistry) (actor : String)
    (gen : SyncGen) (hval : ∀ l p, ∃ q, registry.validate l p = .ok q) :
    ∀ (changes : List Change) (ss : SyncState),
    (changes.foldl (syncStep6 registry actor gen) ss).result.errors =
      ss.result.errors ∧
    (changes.foldl (syncStep6 registry actor gen) ss).result.conflicts =
      ss.result.conflicts ∧
    (changes.foldl (syncStep6 registry actor gen) ss).result.updated =
      ss.result.updated + (changes.filter (fun c =>
        decide (c.type = ChangeType.update ∧ c.docProperties.isSome))).length ∧
    (changes.foldl (syncStep6 registry actor gen) ss).result.created =
      ss.result.created + (changes.filter (fun c =>
        decide (c.type = ChangeType.create ∧ c.docProperties.isSome))).length ∧
    (changes.foldl (syncStep6 registry actor gen) ss).result.deleted =
      ss.result.deleted + (changes.filter (fun c =>
        decide (c.type = ChangeType.delete))).length := by
  intro changes
  induction changes with
  | nil => intro ss; simp
  | cons c rest ih =>
    intro ss
    obtain ⟨e1, c1, u1, cr1, d1⟩ := syncStep6_result registry actor gen hval ss c
    obtain ⟨e2, c2, u2, cr2, d2⟩ := ih (syncStep6 registry actor gen ss c)
    rw [List.foldl_cons]
    refine ⟨e2.trans e1, c2.trans c1, ?_, ?_, ?_⟩
    · rw [u2, u1, List.filter_cons]
      by_cases h : c.type = ChangeType.update ∧ c.docProperties.isSome
      · simp [h]
        omega
      · simp [h]
    · rw [cr2, cr1, List.filter_cons]
      by_cases h : c.type = ChangeType.create ∧ c.docProperties.isSome
      · simp [h]
        omega
      · simp [h]
    · rw [d2, d1, List.filter_cons]
      by_cases h : c.type = ChangeType.delete
      · simp [h]
        omega
      · simp [h]

theorem filter_nonConflicts_create (changes : List Change) :
    (changes.filter (fun c => !decide (c.type = ChangeType.conflict))).filter
      (fun c => decide (c.type = ChangeType.create ∧ c.docProperties.isSome)) =
    changes.filter
      (fun c => decide (c.type = ChangeType.create ∧ c.docProperties.isSome)) := by
  rw [List.filter_filter]
  refine List.filter_congr ?_
  intro c _
  cases hct : c.type <;> simp [hct]

theorem filter_nonConflicts_update (changes : List Change) :
    (changes.filter (fun c => !decide (c.type = ChangeType.conflict))).filter
      (fun c => decide (c.type = ChangeType.update ∧ c.docProperties.isSome)) =
    changes.filter
      (fun c => decide (c.type = ChangeType.update ∧ c.docProperties.isSome)) := by
  rw [List.filter_filter]
  refine List.filter_congr ?_
  intro c _
  cases hct : c.type <;> simp [hct]

theorem filter_nonConflicts_delete (changes : List Change) :
    (changes.filter (fun c => !decide (c.type = ChangeType.conflict))).filter
      (fun c => decide (c.type = ChangeType.delete)) =
    changes.filter (fun c => decide (c.type = ChangeType.delete)) := by
  rw [List.filter_filter]
  refine List.filter_congr ?_
  intro c _
  cases hct : c.type <;> simp [hct]

/-- C2 (amended): with total validation and any strategy other than `fail`,
sync returns a result in which every conflicting change contributes exactly
one ConflictRecord; under `graphWins` the conflict is not counted in
`updated`, but under `docsWins` and `merge` each conflict is ALSO counted
as one `updated` (the resolved conflict is applied to the graph through the
same upsert counter as a doc update), so conflicts are double-counted there,
contrary to the claim. -/
theorem C2_sync_conflict_accounting (st : Store) (registry : SchemaRegistry)
    (gen : SyncGen) (docs : List ParsedDoc) (opts : SyncOptions)
    (changes : List Change)
    (hch : changes =
      computeChanges (loadGraph st (opts.labels.getD registry.nodeLabels)) docs)
    (hval : ∀ l p, ∃ q, registry.validate l p = .ok q)
    (hs : opts.conflictStrategy ≠ ConflictStrategy.fail) :
    ∃ r, (sync st registry gen docs opts).outcome = .ok r ∧
      r.errors = [] ∧
      r.conflicts.length =
        (changes.filter (fun c => decide (c.type = ChangeType.conflict))).length ∧
      r.created = (changes.filter (fun c =>
        decide (c.type = ChangeType.create ∧ c.docProperties.isSome))).length ∧
      r.deleted = (changes.filter (fun c =>
        decide (c.type = ChangeType.delete))).length ∧
      r.updated = (changes.filter (fun c =>
        decide (c.type = ChangeType.update ∧ c.docProperties.isSome))).length +
        (if opts.conflictStrategy = ConflictStrategy.graphWins then 0
         else (changes.filter
           (fun c => decide (c.type = ChangeType.conflict))).length) := by
  subst hch
  obtain ⟨resolved, hres, hlen, hall⟩ := resolveConflicts_ok opts.conflictStrategy hs
    (computeChanges (loadGraph st (opts.labels.getD registry.nodeLabels)) docs)
  obtain ⟨e5, c5, u5, cr5, d5⟩ := syncStep5_foldl registry opts.actor gen hval
    resolved ⟨st, 0, ⟨0, 0, 0, [], []⟩⟩ (fun r h => (hall r h).1)
  obtain ⟨e6, c6, u6, cr6, d6⟩ := syncStep6_foldl registry opts.actor gen hval
    ((computeChanges (loadGraph st (opts.labels.getD registry.nodeLabels))
        docs).filter (fun c => !decide (c.type = ChangeType.conflict)))
    (resolved.foldl (syncStep5 registry opts.actor gen) ⟨st, 0, ⟨0, 0, 0, [], []⟩⟩)
  rw [sync, hres]
  dsimp only
  refine ⟨_, rfl, ?_, ?_, ?_, ?_, ?_⟩
  · rw [e6, e5]
  · rw [c6, c5]
    simp [hlen]
  · rw [cr6, cr5, filter_nonConflicts_create]
    simp
  · rw [d6, d5, filter_nonConflicts_delete]
    simp
  · rw [u6, u5, filter_nonConflicts_update]
    by_cases hgw : opts.conflictStrategy = ConflictStrategy.graphWins
    · have hres0 : resolved.filter
          (fun r => decide (r.target = ResolveTarget.graph)) = [] := by
        rw [List.filter_eq_nil_iff]
        intro r h
        simp only [decide_eq_true_eq]
        intro hg
        exact ((hall r h).2.mp hg) hgw
      rw [hres0, if_pos hgw]
      simp
    · have hresall : resolved.filter
          (fun r => decide (r.target = ResolveTarget.graph)) = resolved := by
        rw [List.filter_eq_self]
        intro r h
        simp only [decide_eq_true_eq]
        exact (hall r h).2.mpr hgw
      rw [hresall, hlen, if_neg hgw]
      simp
      omega

/-- C2 as stated fails: under strategy `docsWins`, a changeset with one
conflict and no update-type change still yields `updated = 1` alongside the
one ConflictRecord — the resolved conflict is applied to the graph and
counted in `updated` as well. -/
theorem C2_counterexample :
    ((sync (createEntity Store.empty
        ⟨"e1", "Person", [("name", JValue.str "Alice")], "test", "t0", "a0"⟩)
      (SchemaRegistry.mk ["Person"] (fun _ p => .ok p))
      ⟨fun _ => "t9", fun _ => "u9"⟩
      [{ filePath := "/docs/Person/e1.md", relativePath := "Person/e1.md",
         fmId := "e1", fmLabel := "Person",
         fmSyncHash := some (JValue.str "stale"),
         frontmatter := [("_id", JValue.str "e1"), ("name", JValue.str "Bob")],
         content := "" }]
      ⟨ConflictStrategy.docsWins, "btmg-sync",
        some ["Person"]⟩).outcome.toOption.map
        (fun r => (r.updated, r.conflicts.length, r.errors.length))) =
      some (1, 1, 0) ∧
    ((computeChanges (loadGraph (createEntity Store.empty
        ⟨"e1", "Person", [("name", JValue.str "Alice")], "test", "t0", "a0"⟩)
        ["Person"])
      [{ filePath := "/docs/Person/e1.md", relativePath := "Person/e1.md",
         fmId := "e1", fmLabel := "Person",
         fmSyncHash := some (JValue.str "stale"),
         frontmatter := [("_id", JValue.str "e1"), ("name", JValue.str "Bob")],
         content := "" }]).filter
      (fun c => decide (c.type = ChangeType.update))).length = 0 := by
  exact ⟨rfl, rfl⟩

theorem C2_witness :
    ∃ r, (sync (createEntity Store.empty
        ⟨"e1", "Person", [("name", JValue.str "Alice")], "test", "t0", "a0"⟩)
      (SchemaRegistry.mk ["Person"] (fun _ p => .ok p))
      ⟨fun _ => "t9", fun _ => "u9"⟩
      [{ filePath := "/docs/Person/e1.md", relativePath := "Person/e1.md",
         fmId := "e1", fmLabel := "Person",
         fmSyncHash := some (JValue.str "stale"),
         frontmatter := [("_id", JValue.str "e1"), ("name", JValue.str "Bob")],
         content := "" }]
      ⟨ConflictStrategy.docsWins, "btmg-sync",
        some ["Person"]⟩).outcome = .ok r ∧
      r.errors = [] ∧
      r.conflicts.length = ((computeChanges (loadGraph (createEntity Store.empty
          ⟨"e1", "Person", [("name", JValue.str "Alice")], "test", "t0", "a0"⟩)
          ["Person"])
        [{ filePath := "/docs/Person/e1.md", relativePath := "Person/e1.md",
           fmId := "e1", fmLabel := "Person",
           fmSyncHash := some (JValue.str "stale"),
           frontmatter := [("_id", JValue.str "e1"), ("name", JValue.str "Bob")],
           content := "" }]).filter
        (fun c => decide (c.type = ChangeType.conflict))).length ∧
      r.created = ((computeChanges (loadGraph (createEntity Store.empty
          ⟨"e1", "Person", [("name", JValue.str "Alice")], "test", "t0", "a0"⟩)
          ["Person"])
        [{ filePath := "/docs/Person/e1.md", relativePath := "Person/e1.md",
           fmId := "e1", fmLabel := "Person",
           fmSyncHash := some (JValue.str "stale"),
           frontmatter := [("_id", JValue.str "e1"), ("name", JValue.str "Bob")],
           content := "" }]).filter
        (fun c => decide (c.type = ChangeType.create ∧
          c.docProperties.isSome))).length ∧
      r.deleted = ((computeChanges (loadGraph (createEntity Store.empty
          ⟨"e1", "Person", [("name", JValue.str "Alice")], "test", "t0", "a0"⟩)
          ["Person"])
        [{ filePath := "/docs/Person/e1.md", relativePath := "Person/e1.md",
           fmId := "e1", fmLabel := "Person",
           fmSyncHash := some (JValue.str "stale"),
           frontmatter := [("_id", JValue.str "e1"), ("name", JValue.str "Bob")],
           content := "" }]).filter
        (fun c => decide (c.type = ChangeType.delete))).length ∧
      r.updated = ((computeChanges (loadGraph (createEntity Store.empty
          ⟨"e1", "Person", [("name", JValue.str "Alice")], "test", "t0", "a0"⟩)
          ["Person"])
        [{ filePath := "/docs/Person/e1.md", relativePath := "Person/e1.md",
           fmId := "e1", fmLabel := "Person",
           fmSyncHash := some (JValue.str "stale"),
           frontmatter := [("_id", JValue.str "e1"), ("name", JValue.str "Bob")],
           content := "" }]).filter
        (fun c => decide (c.type = ChangeType.update ∧
          c.docProperties.isSome))).length +
        (if ConflictStrategy.docsWins = ConflictStrategy.graphWins then 0
         else ((computeChanges (loadGraph (createEntity Store.empty
             ⟨"e1", "Person", [("name", JValue.str "Alice")], "test", "t0", "a0"⟩)
             ["Person"])
           [{ filePath := "/docs/Person/e1.md", relativePath := "Person/e1.md",
              fmId := "e1", fmLabel := "Person",
              fmSyncHash := some (JValue.str "stale"),
              frontmatter := [("_id", JValue.str "e1"),
                ("name", JValue.str "Bob")],
              content := "" }]).filter
           (fun c => decide (c.type = ChangeType.conflict))).length) :=
  C2_sync_conflict_accounting _ _ _ _ _ _ rfl (fun l p => ⟨p, rfl⟩) (by decide)
